import Mathlib

/-!
github-globe-clone: the event pipeline of `backend/server.js` and the display
window of `src/world/components/globe.js`.

A shallow embedding of the two files.

* JavaScript strings are `String`; the regular expression and `includes`
  work on the character list `String.data`.
* JavaScript numbers that are only copied around (coordinates, sizes) are
  rationals; the result of `parseInt` is a double (`JsNumber`, `toDouble`);
  `Date.now()` and `Math.random()` are inputs of the handlers.
* `geoip.lookup` is a parameter `lookup : String → Option Geo` (`none` is the
  `null` result); `requestIp.getClientIp(req)` is the field `clientIp` of a
  request.
* Node runs every handler to completion, so each handler is one function on
  the server state. A handler returns `Except`: the only source of an
  exception in the handlers is `ws.send` on a socket that is not open.
* Every `ws.send` call is recorded, in order, in the field `wire` of the
  state, as a pair of the receiving socket's id and the message.
-/

namespace GlobeClone

/-! ## Regular expressions (the fragment used by `pattern`)

The matcher works on characters where JavaScript works on UTF-16 code units.
Every class of `pattern` treats the two halves of a surrogate pair alike, and
every literal of `pattern` is ASCII, so the matches are the same. -/

/-- ECMAScript `LineTerminator`: the characters `.` does not match. -/
def isLineTerminator (c : Char) : Bool :=
  c.toNat == 0x0A || c.toNat == 0x0D || c.toNat == 0x2028 || c.toNat == 0x2029

/-- ECMAScript `\s`: `WhiteSpace` and `LineTerminator`. -/
def isWhiteSpace (c : Char) : Bool :=
  c.toNat == 0x09 || c.toNat == 0x0B || c.toNat == 0x0C || c.toNat == 0x20 ||
  c.toNat == 0xA0 || c.toNat == 0x1680 || (0x2000 ≤ c.toNat && c.toNat ≤ 0x200A) ||
  c.toNat == 0x202F || c.toNat == 0x205F || c.toNat == 0x3000 || c.toNat == 0xFEFF ||
  isLineTerminator c

/-- Class `\S`. -/
def nonSpace (c : Char) : Bool := !isWhiteSpace c

/-- Class `.` (no `s` flag). -/
def dot (c : Char) : Bool := !isLineTerminator c

/-- Class `[^\]]`. -/
def notRBracket (c : Char) : Bool := !(c == ']')

/-- Class `\d`. -/
def digit (c : Char) : Bool := 48 ≤ c.toNat && c.toNat ≤ 57

/-- Class `[\d.]`. -/
def digitOrDot (c : Char) : Bool := digit c || c == '.'

/-- One item of a pattern: a literal character, or `cls+` (greedy), which is a
capture group when `capture` is set. -/
inductive RegexItem where
  | lit (c : Char)
  | plus (cls : Char → Bool) (capture : Bool)

/-- Greedy `cls+` by backtracking: consume characters of the class as long as
possible, then try the continuation `k` on the longest run first and on
shorter and shorter runs after that; at least one character is consumed.
`acc` is the text consumed so far. -/
def plusK {α : Type} (cls : Char → Bool) (k : List Char → List Char → Option α) :
    List Char → List Char → Option α
  | _, [] => none
  | acc, c :: s =>
    if cls c then
      match plusK cls k (acc ++ [c]) s with
      | some r => some r
      | none => k (acc ++ [c]) s
    else none

/-- Match a pattern at the start of the input (the pattern is anchored by `^`
and has no `$`), returning the captured groups in order. -/
def matchItems : List RegexItem → List Char → Option (List (List Char))
  | [], _ => some []
  | RegexItem.lit c :: rest, s =>
    match s with
    | [] => none
    | c1 :: s1 => if c1 = c then matchItems rest s1 else none
  | RegexItem.plus cls capture :: rest, s =>
    plusK cls (fun taken remaining =>
      match matchItems rest remaining with
      | some caps => some (if capture then taken :: caps else caps)
      | none => none) [] s

/-- The items of `" (\S+) (\S+) HTTP\/[\d.]+" (\d+) (\d+)`, starting after the
closing bracket of the timestamp. -/
def patternRequest : List RegexItem :=
  [RegexItem.lit ' ', RegexItem.lit '"', RegexItem.plus nonSpace true, RegexItem.lit ' ',
   RegexItem.plus nonSpace true, RegexItem.lit ' ', RegexItem.lit 'H', RegexItem.lit 'T',
   RegexItem.lit 'T', RegexItem.lit 'P', RegexItem.lit '/', RegexItem.plus digitOrDot false,
   RegexItem.lit '"', RegexItem.lit ' ', RegexItem.plus digit true, RegexItem.lit ' ',
   RegexItem.plus digit true]

/-- The items of ` \[([^\]]+)\] "(\S+) (\S+) HTTP\/[\d.]+" (\d+) (\d+)`: what
follows `.+` in `pattern`. -/
def patternTail : List RegexItem :=
  RegexItem.lit ' ' :: RegexItem.lit '[' :: RegexItem.plus notRBracket true ::
    RegexItem.lit ']' :: patternRequest

/-- The regular expression of the log monitor:
`/^(\S+) .+ \[([^\]]+)\] "(\S+) (\S+) HTTP\/[\d.]+" (\d+) (\d+)/`. -/
def pattern : List RegexItem :=
  RegexItem.plus nonSpace true :: RegexItem.lit ' ' :: RegexItem.plus dot false :: patternTail

/-- The groups `match[1]` … `match[6]` of a successful `line.match(pattern)`. -/
structure LogMatch where
  ip : String
  time : String
  method : String
  path : String
  status : String
  size : String
  deriving DecidableEq, Repr

/-- Result of `line.match(pattern)`: `none` is the `null` result. -/
def logMatch (line : String) : Option LogMatch :=
  match matchItems pattern line.data with
  | some [g1, g2, g3, g4, g5, g6] =>
    some ⟨String.mk g1, String.mk g2, String.mk g3, String.mk g4, String.mk g5, String.mk g6⟩
  | _ => none

/-- Value of a run of decimal digits read left to right. -/
def digitsValue (acc : Nat) : List Char → Nat
  | [] => acc
  | c :: s => if digit c then digitsValue (acc * 10 + (c.toNat - 48)) s else acc

/-- A JavaScript number as `parseInt` returns it for a text of decimal digits:
a double whose value is the non-negative integer `value`, `Infinity`, or
`NaN`. -/
inductive JsNumber where
  | finite (value : Nat)
  | infinity
  | nan
  deriving DecidableEq, Repr

/-- The Number value of a non-negative integer: the nearest IEEE 754 double,
ties to the even significand, `Infinity` from `2 ^ 1024` on. An integer below
`2 ^ 53` is its own value; a larger one keeps its 53 leading bits, the
`e` bits dropped being rounded. -/
def toDouble (n : Nat) : JsNumber :=
  if n < 2 ^ 53 then JsNumber.finite n
  else
    let e := Nat.log2 n + 1 - 53
    let q := n / 2 ^ e
    let r := n % 2 ^ e
    let half := 2 ^ (e - 1)
    let q1 := if r > half ∨ (r = half ∧ q % 2 = 1) then q + 1 else q
    if q1 * 2 ^ e ≥ 2 ^ 1024 then JsNumber.infinity else JsNumber.finite (q1 * 2 ^ e)

/-- An integer that is exactly a double: at most 53 significant bits, below
`2 ^ 1024`. Every integer up to `2 ^ 53` is one. -/
def exactDouble (n : Nat) : Prop :=
  ∃ q e : Nat, q < 2 ^ 53 ∧ n = q * 2 ^ e ∧ n < 2 ^ 1024

/-- JavaScript `parseInt` on the text of a group `(\d+)`: the Number value of
the integer the leading decimal digits denote, `NaN` when the text does not
start with a digit. -/
def parseInt (s : String) : JsNumber :=
  match s.data with
  | [] => JsNumber.nan
  | c :: _ => if digit c then toDouble (digitsValue 0 s.data) else JsNumber.nan

/-- The text of a request and its result in a log line, from the blank after
the closing bracket of the timestamp on:
` "METHOD PATH HTTP/version" STATUS SIZE`. -/
def requestChars (method path version status size : List Char) : List Char :=
  ' ' :: '"' :: (method ++ ' ' :: (path ++ ' ' :: 'H' :: 'T' :: 'T' :: 'P' :: '/' ::
    (version ++ '"' :: ' ' :: (status ++ ' ' :: size))))

/-- The characters of a log line
`IP FILLER [TIMESTAMP] "METHOD PATH HTTP/version" STATUS SIZE`. -/
def logLineChars (ip filler timestamp method path version status size : List Char) :
    List Char :=
  ip ++ ' ' :: (filler ++ ' ' :: '[' :: (timestamp ++ ']' ::
    requestChars method path version status size))

/-- The log line `IP FILLER [TIMESTAMP] "METHOD PATH HTTP/version" STATUS SIZE`. -/
def logLineText (ip filler timestamp method path version status size : String) : String :=
  String.mk (logLineChars ip.data filler.data timestamp.data method.data path.data
    version.data status.data size.data)

/-- The number a string of decimal digits denotes. -/
def decimalValue (s : String) : Nat :=
  Nat.ofDigits 10 ((s.data.map fun c => c.toNat - 48).reverse)

/-- The result of a match is `null`, or the groups for method, path, status
and size are the given texts. -/
def goodCaptures (method path status size : List Char) (o : Option (List (List Char))) :
    Prop :=
  o = none ∨ ∃ t, o = some [t, method, path, status, size]

/-- A property holds of a text and of every text left after dropping
characters from its front. -/
def allTails (P : List Char → Prop) : List Char → Prop
  | [] => P []
  | c :: s => P (c :: s) ∧ allTails P s

/-! ## `String.prototype.includes` -/

/-- Whether `sub` is an initial segment of `s`. -/
def startsWith : List Char → List Char → Bool
  | _, [] => true
  | [], _ :: _ => false
  | c :: s, d :: sub => c == d && startsWith s sub

/-- Whether `sub` occurs in `s` as a contiguous run of characters. -/
def includesChars : List Char → List Char → Bool
  | [], sub => startsWith [] sub
  | c :: s, sub => startsWith (c :: s) sub || includesChars s sub

/-- JavaScript `s.includes(sub)` with a string argument: plain substring
search, the argument is not a regular expression. -/
def includes (s sub : String) : Bool := includesChars s.data sub.data

/-! ## Server state -/

/-- The fields of a `geoip-lite` record that the server reads. -/
structure Geo where
  ll0 : ℚ
  ll1 : ℚ
  country : String
  city : String
  deriving DecidableEq, Repr

/-- The object `connectionData`; `statusCode` and `responseSize` are absent
(`none`) on events of the request middleware. -/
structure ConnectionData where
  ip : String
  lat : ℚ
  lng : ℚ
  country : String
  city : String
  requestType : String
  path : String
  statusCode : Option JsNumber
  responseSize : Option JsNumber
  timestamp : Nat
  deriving DecidableEq, Repr

/-- The messages the server sends: `{type: 'init', data: [...]}` and a bare
event. `JSON.stringify` fixes the content when the message is sent. -/
inductive Message where
  | init (data : List ConnectionData)
  | event (data : ConnectionData)
  deriving DecidableEq, Repr

/-- The `readyState` of a socket. -/
inductive ReadyState where
  | CONNECTING
  | OPEN
  | CLOSING
  | CLOSED
  deriving DecidableEq, Repr

/-- A member of `wss.clients`. -/
structure Client where
  id : Nat
  readyState : ReadyState
  deriving DecidableEq, Repr

/-- The state of the server: `recentConnections`, `wss.clients` in insertion
order, the record of all `send` calls, and the id of the next socket. -/
structure ServerState where
  recentConnections : List ConnectionData
  clients : List Client
  wire : List (Nat × Message)
  nextId : Nat
  deriving DecidableEq, Repr

def MAX_STORED_CONNECTIONS : Nat := 100

/-- The state at start-up: no history, no client. -/
def ServerState.initial : ServerState := ⟨[], [], [], 0⟩

/-- The call `ws.send(msg)`: delivers on an open socket, and is a send failure
(an exception) on a socket that is not open. -/
def wsSend (c : Client) (msg : Message) (wire : List (Nat × Message)) :
    Except String (List (Nat × Message)) :=
  if c.readyState = ReadyState.OPEN then Except.ok (wire ++ [(c.id, msg)])
  else Except.error "WebSocket is not open"

/-- The loop of `broadcast(data)` over `wss.clients`. -/
def broadcastLoop (data : ConnectionData) :
    List Client → List (Nat × Message) → Except String (List (Nat × Message))
  | [], wire => Except.ok wire
  | client :: rest, wire =>
    if client.readyState = ReadyState.OPEN then
      match wsSend client (Message.event data) wire with
      | Except.ok wire1 => broadcastLoop data rest wire1
      | Except.error err => Except.error err
    else broadcastLoop data rest wire

/-- Function `broadcast(data)`. -/
def broadcast (s : ServerState) (data : ConnectionData) : Except String ServerState :=
  match broadcastLoop data s.clients s.wire with
  | Except.ok wire1 => Except.ok { s with wire := wire1 }
  | Except.error err => Except.error err

/-- Statements `recentConnections.unshift(connectionData)` followed by
`if (recentConnections.length > MAX_STORED_CONNECTIONS) recentConnections.pop()`. -/
def unshiftPop (connectionData : ConnectionData) (recent : List ConnectionData) :
    List ConnectionData :=
  let recent1 := connectionData :: recent
  if recent1.length > MAX_STORED_CONNECTIONS then recent1.dropLast else recent1

/-- An inbound request as the middleware reads it. -/
structure Request where
  path : String
  method : String
  clientIp : String
  deriving DecidableEq, Repr

/-- The skip condition of the middleware. -/
def skipsRequest (req : Request) : Bool :=
  includes req.path "/socket.io" || includes req.path ".[js|css|png|jpg|gif|svg|ico]$"

/-- The object literal `connectionData` of the middleware. -/
def requestConnectionData (req : Request) (geo : Geo) (now : Nat) : ConnectionData :=
  { ip := req.clientIp, lat := geo.ll0, lng := geo.ll1, country := geo.country,
    city := geo.city, requestType := req.method, path := req.path,
    statusCode := none, responseSize := none, timestamp := now }

/-- The request middleware `app.use((req, res, next) => ...)`. -/
def middleware (lookup : String → Option Geo) (s : ServerState) (req : Request) (now : Nat) :
    Except String ServerState :=
  if skipsRequest req then Except.ok s
  else
    match lookup req.clientIp with
    | some geo =>
      let connectionData := requestConnectionData req geo now
      broadcast { s with recentConnections := unshiftPop connectionData s.recentConnections }
        connectionData
    | none => Except.ok s

/-- The object literal `connectionData` of the log monitor. -/
def lineConnectionData (m : LogMatch) (geo : Geo) (now : Nat) : ConnectionData :=
  { ip := m.ip, lat := geo.ll0, lng := geo.ll1, country := geo.country,
    city := geo.city, requestType := m.method, path := m.path,
    statusCode := some (parseInt m.status), responseSize := some (parseInt m.size),
    timestamp := now }

/-- The handler `tail.on("line", (line) => ...)`. -/
def onLine (lookup : String → Option Geo) (s : ServerState) (line : String) (now : Nat) :
    Except String ServerState :=
  match logMatch line with
  | some m =>
    if m.ip = "127.0.0.1" ∨ m.ip = "::1" then Except.ok s
    else
      match lookup m.ip with
      | none => Except.ok s
      | some geo =>
        let connectionData := lineConnectionData m geo now
        broadcast { s with recentConnections := unshiftPop connectionData s.recentConnections }
          connectionData
  | none => Except.ok s

/-- The handler `wss.on('connection', (ws) => ...)`: the new socket is open and
already a member of `wss.clients` when the handler sends the initial data. -/
def onConnection (s : ServerState) : Except String ServerState :=
  let ws : Client := ⟨s.nextId, ReadyState.OPEN⟩
  match wsSend ws (Message.init s.recentConnections) s.wire with
  | Except.ok wire1 =>
    Except.ok { s with clients := s.clients ++ [ws], wire := wire1, nextId := s.nextId + 1 }
  | Except.error err => Except.error err

/-- A socket starts closing or breaks: its `readyState` leaves `OPEN`. -/
def onClosing (s : ServerState) (id : Nat) : ServerState :=
  { s with clients := s.clients.map fun c =>
      if c.id = id then { c with readyState := ReadyState.CLOSING } else c }

/-- The socket's `close` event: `ws` removes it from `wss.clients`; the
handler of the application only logs. -/
def onClose (s : ServerState) (id : Nat) : ServerState :=
  { s with clients := s.clients.filter fun c => c.id ≠ id }

/-- What the event loop hands to the server. -/
inductive Input where
  | request (req : Request) (now : Nat)
  | logLine (line : String) (now : Nat)
  | connect
  | closing (id : Nat)
  | close (id : Nat)
  deriving DecidableEq, Repr

/-- One turn of the event loop. -/
def step (lookup : String → Option Geo) (s : ServerState) : Input → Except String ServerState
  | Input.request req now => middleware lookup s req now
  | Input.logLine line now => onLine lookup s line now
  | Input.connect => onConnection s
  | Input.closing id => Except.ok (onClosing s id)
  | Input.close id => Except.ok (onClose s id)

/-- A run of the event loop. -/
def run (lookup : String → Option Geo) : ServerState → List Input → Except String ServerState
  | s, [] => Except.ok s
  | s, i :: rest =>
    match step lookup s i with
    | Except.ok s1 => run lookup s1 rest
    | Except.error err => Except.error err

/-! ## Observations on a run -/

/-- The event an input appends to `recentConnections`, if it appends one. -/
def eventOf (lookup : String → Option Geo) : Input → Option ConnectionData
  | Input.request req now =>
    if skipsRequest req then none
    else (lookup req.clientIp).map fun geo => requestConnectionData req geo now
  | Input.logLine line now =>
    match logMatch line with
    | some m =>
      if m.ip = "127.0.0.1" ∨ m.ip = "::1" then none
      else (lookup m.ip).map fun geo => lineConnectionData m geo now
    | none => none
  | _ => none

/-- The members of `wss.clients` whose `readyState` is `OPEN`. -/
def openClients (clients : List Client) : List Client :=
  clients.filter fun c => decide (c.readyState = ReadyState.OPEN)

/-- The `send` calls that deliver `data` to the open clients, in set order. -/
def eventSends (clients : List Client) (data : ConnectionData) : List (Nat × Message) :=
  (openClients clients).map fun c => (c.id, Message.event data)

/-- The state after an event was put in the history and sent to the open
clients. -/
def published (s : ServerState) (data : ConnectionData) : ServerState :=
  { s with recentConnections := unshiftPop data s.recentConnections,
           wire := s.wire ++ eventSends s.clients data }

/-- The events a list of inputs appends to `recentConnections`, in the order
of the appends. -/
def appended (lookup : String → Option Geo) (inputs : List Input) : List ConnectionData :=
  inputs.filterMap (eventOf lookup)

/-- The messages sent to socket `id`, in the order sent. -/
def received (s : ServerState) (id : Nat) : List Message :=
  (s.wire.filter fun p => p.1 = id).map Prod.snd

/-- The events among a list of messages. -/
def liveEvents : List Message → List ConnectionData
  | [] => []
  | Message.event e :: rest => e :: liveEvents rest
  | Message.init _ :: rest => liveEvents rest

/-! ## The viewer: `Globe.addNewConnection` and `Globe.tick` -/

def MAX_CONNECTIONS_DISPLAYED : Nat := 100

/-- An event as the viewer receives it; `size` is read by `tick` and is not
set by the server. -/
structure Connection where
  ip : String
  lat : ℚ
  lng : ℚ
  country : String
  city : String
  requestType : String
  path : String
  statusCode : Option Nat
  responseSize : Option Nat
  timestamp : Option Nat
  size : Option ℚ
  deriving DecidableEq, Repr

/-- An entry of `connectionQueue`: the connection with `color` and
`timestamp` set by `addNewConnection`. -/
structure QueuedConnection where
  connection : Connection
  color : Nat
  timestamp : Nat
  deriving DecidableEq, Repr

/-- An entry of `arcsData`. -/
structure Arc where
  startLat : ℚ
  startLng : ℚ
  endLat : ℚ
  endLng : ℚ
  color : Nat
  arcAlt : ℚ
  order : ℚ
  size : ℚ
  animateIn : Bool
  ip : String
  country : String
  city : String
  requestType : String
  path : String
  statusCode : Option Nat
  timestamp : Nat
  deriving DecidableEq, Repr

/-- An entry of `pointsData`. -/
structure Point where
  lat : ℚ
  lng : ℚ
  size : ℚ
  color : Nat
  ip : String
  country : String
  city : String
  requestType : String
  path : String
  statusCode : Option Nat
  timestamp : Nat
  deriving DecidableEq, Repr

/-- The fields of a `Globe` that `addNewConnection` and `tick` use. -/
structure Globe where
  pointsData : List Point
  arcsData : List Arc
  connectionQueue : List QueuedConnection
  connectionCount : Nat
  serverLat : ℚ
  serverLng : ℚ
  deriving DecidableEq, Repr

/-- The fields set by the constructor. -/
def Globe.new : Globe :=
  { pointsData := [], arcsData := [], connectionQueue := [], connectionCount := 0,
    serverLat := 488566 / 10000, serverLng := 23522 / 10000 }

/-- The colour chosen by `addNewConnection`, as the hexadecimal number given to
`new Color`. -/
def connectionColor (connection : Connection) : Nat :=
  if (match connection.statusCode with
      | some code => decide (code ≥ 400)
      | none => false) then 0xFF4136
  else if connection.requestType = "POST" then 0xFFDC00
  else if connection.requestType = "GET" then 0x62DAFF
  else 0x01FF70

/-- Method `addNewConnection(connection)`; `now` is `Date.now()`. The updates
of the loading overlay are left out. -/
def Globe.addNewConnection (g : Globe) (connection : Connection) (now : Nat) : Globe :=
  { g with
    connectionQueue := g.connectionQueue ++
      [{ connection := connection, color := connectionColor connection,
         timestamp := match connection.timestamp with
           | some t => if t = 0 then now else t
           | none => now }],
    connectionCount := g.connectionCount + 1 }

/-- The object `arc` built in `tick`; `r1` and `r2` are the two values of
`Math.random()`. -/
def arcOf (g : Globe) (c : QueuedConnection) (r1 r2 : ℚ) : Arc :=
  { startLat := c.connection.lat, startLng := c.connection.lng,
    endLat := g.serverLat, endLng := g.serverLng, color := c.color,
    arcAlt := r1 * (4 / 10) + 1 / 10, order := r2,
    size := match c.connection.size with
      | some v => if v = 0 then 3 / 10 else v
      | none => 3 / 10,
    animateIn := true, ip := c.connection.ip, country := c.connection.country,
    city := c.connection.city, requestType := c.connection.requestType,
    path := c.connection.path, statusCode := c.connection.statusCode,
    timestamp := c.timestamp }

/-- The object pushed on `pointsData` in `tick`. -/
def pointOf (c : QueuedConnection) : Point :=
  { lat := c.connection.lat, lng := c.connection.lng, size := 1 / 2, color := c.color,
    ip := c.connection.ip, country := c.connection.country, city := c.connection.city,
    requestType := c.connection.requestType, path := c.connection.path,
    statusCode := c.connection.statusCode, timestamp := c.timestamp }

/-- The `while` loop of `tick`: `k` counts the connections already taken from
the queue, and `random i` is the value of the `i`-th call of `Math.random()`. -/
def tickLoop (g : Globe) (random : Nat → ℚ) :
    Nat → List QueuedConnection → List Arc → List Point → List Arc × List Point
  | _, [], arcs, points => (arcs, points)
  | k, connection :: queue, arcs, points =>
    let arcs1 := arcs ++ [arcOf g connection (random (2 * k)) (random (2 * k + 1))]
    let points1 := points ++ [pointOf connection]
    if arcs1.length > MAX_CONNECTIONS_DISPLAYED then
      tickLoop g random (k + 1) queue arcs1.tail points1.tail
    else tickLoop g random (k + 1) queue arcs1 points1

/-- Method `tick(delta)`; the calls that hand the data to the renderer are
left out. -/
def Globe.tick (g : Globe) (random : Nat → ℚ) : Globe :=
  let r := tickLoop g random 0 g.connectionQueue g.arcsData g.pointsData
  { g with connectionQueue := [], arcsData := r.1, pointsData := r.2 }

/-- The arcs `tick` builds for a queue, in queue order, when `k` connections
were taken before. -/
def arcsOf (g : Globe) (random : Nat → ℚ) : Nat → List QueuedConnection → List Arc
  | _, [] => []
  | k, c :: queue =>
    arcOf g c (random (2 * k)) (random (2 * k + 1)) :: arcsOf g random (k + 1) queue

/-- The last `n` entries of a list. -/
def lastN {α : Type} (n : Nat) (l : List α) : List α := l.drop (l.length - n)

/-- What holds of every state the server reaches: the members of `wss.clients`
are distinct sockets, and ids from `nextId` on are not in use yet. -/
def Inv (s : ServerState) : Prop :=
  (s.clients.map Client.id).Nodup ∧ (∀ c ∈ s.clients, c.id < s.nextId) ∧
    (∀ p ∈ s.wire, p.1 < s.nextId)

/-- Whether an input is kept when the log lines that do not match `pattern`
are removed from a run. -/
def keptInput : Input → Bool
  | Input.logLine line _ => (logMatch line).isSome
  | _ => true

/-! ## Sample data -/

/-- A server with one open viewer and an empty history. -/
def oneViewer : ServerState := ⟨[], [⟨0, ReadyState.OPEN⟩], [], 1⟩

/-- The server after three viewers connected and the second one started
closing: it is still a member of `wss.clients`. -/
def closingViewer : ServerState :=
  ⟨[], [⟨0, ReadyState.OPEN⟩, ⟨1, ReadyState.CLOSING⟩, ⟨2, ReadyState.OPEN⟩],
    [(0, Message.init []), (1, Message.init []), (2, Message.init [])], 3⟩

def bigSizeLine : String :=
  "203.0.113.5 - - [10/Oct/2023:13:55:36] \"GET /api/data HTTP/1.1\" 200 9007199254740993"

def assetRequest : Request := ⟨"/app.js", "GET", "203.0.113.5"⟩

def privateRequest : Request := ⟨"/", "GET", "192.168.0.1"⟩

def privateLine : String := "10.0.0.1 - - [t] \"GET / HTTP/1.1\" 200 5"

def loopbackLine : String := "127.0.0.1 - - [t] \"GET / HTTP/1.1\" 200 5"

def garbledLine : String := "203.0.113.5 - - [10/Oct/2023"

def sampleConnection : Connection :=
  { ip := "203.0.113.5", lat := 48, lng := 2, country := "FR", city := "Paris",
    requestType := "GET", path := "/api/data", statusCode := some 200,
    responseSize := some 512, timestamp := some 7, size := none }

def sampleQueued : QueuedConnection :=
  { connection := sampleConnection, color := 0x62DAFF, timestamp := 7 }

/-- A globe whose display set is at capacity, with two connections queued. -/
def fullGlobe : Globe :=
  { Globe.new with
    pointsData := List.replicate 100 (pointOf sampleQueued),
    arcsData := List.replicate 100 (arcOf Globe.new sampleQueued 0 0),
    connectionQueue := [sampleQueued, { sampleQueued with timestamp := 8 }] }

/-- A lookup that resolves every address. -/
def resolveAll : String → Option Geo := fun _ => some ⟨48, 2, "FR", "Paris"⟩

/-- A lookup that resolves no address. -/
def resolveNone : String → Option Geo := fun _ => none

def sampleGeo : Geo := ⟨48, 2, "FR", "Paris"⟩

def sampleLine : String :=
  "203.0.113.5 - - [10/Oct/2023:13:55:36] \"GET /api/data HTTP/1.1\" 200 512"

/-! ## Lemmas on the server -/

theorem broadcastLoop_eq (data : ConnectionData) (clients : List Client)
    (wire : List (Nat × Message)) :
    broadcastLoop data clients wire = Except.ok (wire ++ eventSends clients data) := by
  induction clients generalizing wire with
  | nil => simp [broadcastLoop, eventSends, openClients]
  | cons c rest ih =>
    by_cases h : c.readyState = ReadyState.OPEN
    · simp [broadcastLoop, wsSend, h, ih, eventSends, openClients]
    · simp [broadcastLoop, h, ih, eventSends, openClients]

theorem broadcast_eq (s : ServerState) (data : ConnectionData) :
    broadcast s data = Except.ok { s with wire := s.wire ++ eventSends s.clients data } := by
  simp [broadcast, broadcastLoop_eq]

theorem step_of_event (lookup : String → Option Geo) (s : ServerState) (i : Input)
    (e : ConnectionData) (h : eventOf lookup i = some e) :
    step lookup s i = Except.ok (published s e) := by
  cases i with
  | request req now =>
    simp only [eventOf] at h
    by_cases hs : skipsRequest req = true
    · simp [hs] at h
    · cases hl : lookup req.clientIp with
      | none => simp [hs, hl] at h
      | some geo =>
        simp [hs, hl] at h
        simp [step, middleware, hs, hl, broadcast_eq, published, h]
  | logLine line now =>
    simp only [eventOf] at h
    cases hm : logMatch line with
    | none => simp [hm] at h
    | some m =>
      by_cases hlocal : m.ip = "127.0.0.1" ∨ m.ip = "::1"
      · simp [hm, hlocal] at h
      · cases hl : lookup m.ip with
        | none => simp [hm, hlocal, hl] at h
        | some geo =>
          simp [hm, hlocal, hl] at h
          simp [step, onLine, hm, hlocal, hl, broadcast_eq, published, h]
  | connect => simp [eventOf] at h
  | closing id => simp [eventOf] at h
  | close id => simp [eventOf] at h

theorem step_request_of_no_event (lookup : String → Option Geo) (s : ServerState)
    (req : Request) (now : Nat) (h : eventOf lookup (Input.request req now) = none) :
    step lookup s (Input.request req now) = Except.ok s := by
  simp only [eventOf] at h
  by_cases hs : skipsRequest req = true
  · simp [step, middleware, hs]
  · cases hl : lookup req.clientIp with
    | none => simp [step, middleware, hs, hl]
    | some geo => simp [hs, hl] at h

theorem step_logLine_of_no_event (lookup : String → Option Geo) (s : ServerState)
    (line : String) (now : Nat) (h : eventOf lookup (Input.logLine line now) = none) :
    step lookup s (Input.logLine line now) = Except.ok s := by
  simp only [eventOf] at h
  cases hm : logMatch line with
  | none => simp [step, onLine, hm]
  | some m =>
    by_cases hlocal : m.ip = "127.0.0.1" ∨ m.ip = "::1"
    · simp [step, onLine, hm, hlocal]
    · cases hl : lookup m.ip with
      | none => simp [step, onLine, hm, hlocal, hl]
      | some geo => simp [hm, hlocal, hl] at h

theorem onConnection_eq (s : ServerState) :
    onConnection s = Except.ok
      { s with clients := s.clients ++ [⟨s.nextId, ReadyState.OPEN⟩],
               wire := s.wire ++ [(s.nextId, Message.init s.recentConnections)],
               nextId := s.nextId + 1 } := by
  simp [onConnection, wsSend]

/-- No turn of the event loop raises. -/
theorem step_ok (lookup : String → Option Geo) (s : ServerState) (i : Input) :
    ∃ s1, step lookup s i = Except.ok s1 := by
  cases he : eventOf lookup i with
  | some e => exact ⟨_, step_of_event lookup s i e he⟩
  | none =>
    cases i with
    | request req now => exact ⟨_, step_request_of_no_event lookup s req now he⟩
    | logLine line now => exact ⟨_, step_logLine_of_no_event lookup s line now he⟩
    | connect => exact ⟨_, onConnection_eq s⟩
    | closing id => exact ⟨_, rfl⟩
    | close id => exact ⟨_, rfl⟩

theorem run_cons (lookup : String → Option Geo) (s s1 : ServerState) (i : Input)
    (rest : List Input) (h : step lookup s i = Except.ok s1) :
    run lookup s (i :: rest) = run lookup s1 rest := by
  simp [run, h]

/-- No run of the event loop raises. -/
theorem run_ok (lookup : String → Option Geo) (s : ServerState) (inputs : List Input) :
    ∃ s1, run lookup s inputs = Except.ok s1 := by
  induction inputs generalizing s with
  | nil => exact ⟨s, rfl⟩
  | cons i rest ih =>
    obtain ⟨s1, h1⟩ := step_ok lookup s i
    rw [run_cons lookup s s1 i rest h1]
    exact ih s1

theorem run_append (lookup : String → Option Geo) (s s1 : ServerState)
    (xs ys : List Input) (h : run lookup s xs = Except.ok s1) :
    run lookup s (xs ++ ys) = run lookup s1 ys := by
  induction xs generalizing s with
  | nil => simp [run] at h; simp [h]
  | cons i rest ih =>
    obtain ⟨s2, h2⟩ := step_ok lookup s i
    rw [run_cons lookup s s2 i rest h2] at h
    rw [List.cons_append, run_cons lookup s s2 i _ h2]
    exact ih s2 h

theorem unshiftPop_eq_take (e : ConnectionData) (recent : List ConnectionData)
    (h : recent.length ≤ MAX_STORED_CONNECTIONS) :
    unshiftPop e recent = (e :: recent).take MAX_STORED_CONNECTIONS := by
  unfold unshiftPop
  simp only [MAX_STORED_CONNECTIONS] at *
  by_cases hlen : (e :: recent).length > 100
  · have h100 : recent.length = 100 := by simp at hlen; omega
    rw [if_pos hlen, List.dropLast_eq_take]
    simp [h100]
  · rw [if_neg hlen, List.take_of_length_le (by omega)]

/-- The history of a step: unchanged, or the new event put in front. -/
theorem step_recentConnections (lookup : String → Option Geo) (s s1 : ServerState) (i : Input)
    (h : step lookup s i = Except.ok s1) :
    s1.recentConnections =
      match eventOf lookup i with
      | some e => unshiftPop e s.recentConnections
      | none => s.recentConnections := by
  cases he : eventOf lookup i with
  | some e =>
    rw [step_of_event lookup s i e he] at h
    cases h
    rfl
  | none =>
    cases i with
    | request req now =>
      rw [step_request_of_no_event lookup s req now he] at h; cases h; rfl
    | logLine line now =>
      rw [step_logLine_of_no_event lookup s line now he] at h; cases h; rfl
    | connect => rw [step, onConnection_eq] at h; cases h; rfl
    | closing id => cases h; rfl
    | close id => cases h; rfl

theorem take_append_take {α : Type} (n : Nat) (a b : List α) :
    (a ++ b.take n).take n = (a ++ b).take n := by
  rw [List.take_append_eq_append_take, List.take_append_eq_append_take, List.take_take]
  congr 2
  omega

theorem run_recentConnections (lookup : String → Option Geo) (s : ServerState)
    (inputs : List Input) (h : s.recentConnections.length ≤ MAX_STORED_CONNECTIONS) :
    ∃ s1, run lookup s inputs = Except.ok s1 ∧
      s1.recentConnections =
        ((appended lookup inputs).reverse ++ s.recentConnections).take MAX_STORED_CONNECTIONS := by
  induction inputs generalizing s with
  | nil =>
    refine ⟨s, rfl, ?_⟩
    simp [appended, List.take_of_length_le h]
  | cons i rest ih =>
    obtain ⟨s1, h1⟩ := step_ok lookup s i
    have hrc := step_recentConnections lookup s s1 i h1
    rw [run_cons lookup s s1 i rest h1]
    cases he : eventOf lookup i with
    | none =>
      rw [he] at hrc
      obtain ⟨s2, h2, h3⟩ := ih s1 (by rw [hrc]; exact h)
      refine ⟨s2, h2, ?_⟩
      rw [h3, hrc]
      simp [appended, List.filterMap_cons, he]
    | some e =>
      rw [he] at hrc
      simp only at hrc
      rw [unshiftPop_eq_take e _ h] at hrc
      obtain ⟨s2, h2, h3⟩ := ih s1 (by rw [hrc]; simp [MAX_STORED_CONNECTIONS])
      refine ⟨s2, h2, ?_⟩
      rw [h3, hrc, take_append_take]
      simp [appended, List.filterMap_cons, he]

/-- C1. Whatever inputs the event loop processes from the start-up state, in
any interleaving of requests and log lines, `recentConnections` is the most
recent `min n 100` of the `n` appended events, newest first; its length is at
most `MAX_STORED_CONNECTIONS` after every prefix of the run; and when 101
events were appended it has exactly 100 entries, the 100 later events newest
first, so that the first event is absent (unless a later event equals it). -/
theorem recentConnections_recent_window (lookup : String → Option Geo) (inputs : List Input) :
    ∃ s, run lookup ServerState.initial inputs = Except.ok s ∧
      s.recentConnections =
        (appended lookup inputs).reverse.take (min (appended lookup inputs).length 100) ∧
      s.recentConnections.head? = (appended lookup inputs).getLast? ∧
      (∀ k, ∃ sk, run lookup ServerState.initial (inputs.take k) = Except.ok sk ∧
        sk.recentConnections.length ≤ MAX_STORED_CONNECTIONS) ∧
      (∀ first rest, appended lookup inputs = first :: rest → rest.length = 100 →
        s.recentConnections.length = 100 ∧ s.recentConnections = rest.reverse ∧
        (first ∉ rest → first ∉ s.recentConnections)) := by
  have hinit : ServerState.initial.recentConnections.length ≤ MAX_STORED_CONNECTIONS := by
    simp [ServerState.initial]
  obtain ⟨s, hs, hrc⟩ := run_recentConnections lookup ServerState.initial inputs hinit
  have hrc1 : s.recentConnections = (appended lookup inputs).reverse.take 100 := by
    rw [hrc]; simp [ServerState.initial, MAX_STORED_CONNECTIONS]
  refine ⟨s, hs, ?_, ?_, ?_, ?_⟩
  · rw [hrc1]
    rcases Nat.le_total (appended lookup inputs).length 100 with hle | hle
    · rw [Nat.min_eq_left hle, List.take_of_length_le (by simpa using hle),
        List.take_of_length_le (by simp)]
    · rw [Nat.min_eq_right hle]
  · rw [hrc1]
    cases hrev : (appended lookup inputs).reverse with
    | nil =>
      have : appended lookup inputs = [] := by simpa using hrev
      simp [this]
    | cons x xs =>
      have : appended lookup inputs = xs.reverse ++ [x] := by
        have := congrArg List.reverse hrev
        simpa using this
      simp [this]
  · intro k
    obtain ⟨sk, hk, hrck⟩ := run_recentConnections lookup ServerState.initial (inputs.take k) hinit
    refine ⟨sk, hk, ?_⟩
    rw [hrck]
    simp [MAX_STORED_CONNECTIONS]
  · intro first rest hev hlen
    have h2 : s.recentConnections = rest.reverse := by
      rw [hrc1, hev, List.reverse_cons, List.take_append_eq_append_take]
      simp [hlen]
    refine ⟨by rw [h2]; simpa using hlen, h2, ?_⟩
    intro hnot
    rw [h2]
    simpa using hnot

/-- C2. When the geolocation lookup returns `null` for the source IP, the
request middleware and the log-line handler leave the state as it is: nothing
is put in `recentConnections` and no message is sent. -/
theorem unresolvable_ip_no_event (lookup : String → Option Geo) (s : ServerState) (now : Nat) :
    (∀ req : Request, lookup req.clientIp = none →
      middleware lookup s req now = Except.ok s) ∧
    (∀ (line : String) (m : LogMatch), logMatch line = some m → lookup m.ip = none →
      onLine lookup s line now = Except.ok s) := by
  constructor
  · intro req h
    by_cases hs : skipsRequest req = true
    · simp [middleware, hs]
    · simp [middleware, hs, h]
  · intro line m hm h
    by_cases hlocal : m.ip = "127.0.0.1" ∨ m.ip = "::1"
    · simp [onLine, hm, hlocal]
    · simp [onLine, hm, hlocal, h]

theorem unresolvable_ip_no_event_witness :
    middleware resolveNone oneViewer privateRequest 5 = Except.ok oneViewer ∧
    onLine resolveNone oneViewer sampleLine 5 = Except.ok oneViewer :=
  ⟨(unresolvable_ip_no_event resolveNone oneViewer 5).1 privateRequest rfl,
   (unresolvable_ip_no_event resolveNone oneViewer 5).2 sampleLine
     ⟨"203.0.113.5", "10/Oct/2023:13:55:36", "GET", "/api/data", "200", "512"⟩
     (by decide) rfl⟩

/-- C3, as the code has it. A log line whose source IP is the text `127.0.0.1`
or `::1` is skipped before the lookup is consulted: whatever the lookup would
return, the state is unchanged. -/
theorem loopback_log_line_skipped (lookup : String → Option Geo) (s : ServerState)
    (line : String) (now : Nat) (m : LogMatch) (hm : logMatch line = some m)
    (hip : m.ip = "127.0.0.1" ∨ m.ip = "::1") :
    onLine lookup s line now = Except.ok s := by
  simp [onLine, hm, hip]

theorem loopback_log_line_skipped_witness :
    onLine resolveAll oneViewer loopbackLine 5 = Except.ok oneViewer :=
  loopback_log_line_skipped resolveAll oneViewer loopbackLine 5
    ⟨"127.0.0.1", "t", "GET", "/", "200", "5"⟩ (by decide) (Or.inl rfl)

/-- C3 fails as stated: with a lookup that resolves them, a log line from
`10.0.0.1` and a request from `192.168.0.1` are each put in the history and
sent to the open viewer. -/
theorem private_address_reaches_lookup :
    (∃ s1, onLine resolveAll oneViewer privateLine 5 = Except.ok s1 ∧
      s1.recentConnections.length = 1 ∧ s1.wire.length = 1) ∧
    (∃ s1, middleware resolveAll oneViewer privateRequest 5 = Except.ok s1 ∧
      s1.recentConnections.length = 1 ∧ s1.wire.length = 1) := by
  constructor
  · have hm : logMatch privateLine = some ⟨"10.0.0.1", "t", "GET", "/", "200", "5"⟩ := by
      decide
    refine ⟨_, step_of_event resolveAll oneViewer (Input.logLine privateLine 5)
      (lineConnectionData ⟨"10.0.0.1", "t", "GET", "/", "200", "5"⟩ ⟨48, 2, "FR", "Paris"⟩ 5)
      ?_, ?_, ?_⟩
    · simp only [eventOf, hm]
      rw [if_neg (by decide)]
      rfl
    · simp [published, unshiftPop, oneViewer, MAX_STORED_CONNECTIONS]
    · simp [published, eventSends, openClients, oneViewer]
  · have hs : skipsRequest privateRequest = false := by decide
    refine ⟨_, step_of_event resolveAll oneViewer (Input.request privateRequest 5)
      (requestConnectionData privateRequest ⟨48, 2, "FR", "Paris"⟩ 5) ?_, ?_, ?_⟩
    · simp only [eventOf, hs]
      rfl
    · simp [published, unshiftPop, oneViewer, MAX_STORED_CONNECTIONS]
    · simp [published, eventSends, openClients, oneViewer]

/-- C4 at the failing input. The path `/app.js` does not contain the text
`.[js|css|png|jpg|gif|svg|ico]$`, so the middleware does not skip the request:
the event is put in the history and sent to the open viewer. -/
theorem static_asset_request_tracked :
    skipsRequest assetRequest = false ∧
    middleware resolveAll oneViewer assetRequest 5 =
      Except.ok (published oneViewer
        (requestConnectionData assetRequest ⟨48, 2, "FR", "Paris"⟩ 5)) ∧
    (published oneViewer
        (requestConnectionData assetRequest ⟨48, 2, "FR", "Paris"⟩ 5)).recentConnections =
      [requestConnectionData assetRequest ⟨48, 2, "FR", "Paris"⟩ 5] ∧
    (published oneViewer
        (requestConnectionData assetRequest ⟨48, 2, "FR", "Paris"⟩ 5)).wire =
      [(0, Message.event (requestConnectionData assetRequest ⟨48, 2, "FR", "Paris"⟩ 5))] := by
  have hs : skipsRequest assetRequest = false := by decide
  refine ⟨hs, ?_, ?_, ?_⟩
  · refine step_of_event resolveAll oneViewer (Input.request assetRequest 5)
      (requestConnectionData assetRequest ⟨48, 2, "FR", "Paris"⟩ 5) ?_
    simp only [eventOf, hs]
    rfl
  · simp [published, unshiftPop, oneViewer, MAX_STORED_CONNECTIONS]
  · simp [published, eventSends, openClients, oneViewer]

theorem run_filter_kept (lookup : String → Option Geo) (s : ServerState)
    (inputs : List Input) :
    run lookup s inputs = run lookup s (inputs.filter keptInput) := by
  induction inputs generalizing s with
  | nil => rfl
  | cons i rest ih =>
    by_cases hk : keptInput i = true
    · obtain ⟨s1, h1⟩ := step_ok lookup s i
      rw [List.filter_cons_of_pos hk, run_cons lookup s s1 i _ h1,
        run_cons lookup s s1 i _ h1]
      exact ih s1
    · rw [List.filter_cons_of_neg hk]
      cases i with
      | logLine line now =>
        have hm : logMatch line = none := by
          cases h : logMatch line with
          | none => rfl
          | some m => simp [keptInput, h] at hk
        have h1 : step lookup s (Input.logLine line now) = Except.ok s := by
          simp [step, onLine, hm]
        rw [run_cons lookup s s _ _ h1]
        exact ih s
      | request req now => simp [keptInput] at hk
      | connect => simp [keptInput] at hk
      | closing id => simp [keptInput] at hk
      | close id => simp [keptInput] at hk

/-- C6. A log line that does not match the pattern leaves the state as it is
and the handler returns normally; hence a run ends in the same state, with the
same history and the same messages sent, as the run with the non-matching
lines removed, and neither run raises. -/
theorem unmatched_line_skipped (lookup : String → Option Geo) (s : ServerState) :
    (∀ (line : String) (now : Nat), logMatch line = none →
      onLine lookup s line now = Except.ok s) ∧
    (∀ inputs : List Input, ∃ s1, run lookup s inputs = Except.ok s1 ∧
      run lookup s (inputs.filter keptInput) = Except.ok s1) := by
  constructor
  · intro line now hm
    simp [onLine, hm]
  · intro inputs
    obtain ⟨s1, h1⟩ := run_ok lookup s inputs
    exact ⟨s1, h1, by rw [← run_filter_kept]; exact h1⟩

theorem unmatched_line_skipped_witness :
    onLine resolveAll oneViewer garbledLine 5 = Except.ok oneViewer :=
  (unmatched_line_skipped resolveAll oneViewer).1 garbledLine 5 (by decide)

/-- C8, as the code has it. `broadcast` sends the event to every member of
`wss.clients` whose `readyState` is `OPEN`, in set order, and to no other; it
leaves `wss.clients` and the history as they are and does not raise. -/
theorem broadcast_open_clients (s : ServerState) (data : ConnectionData) :
    broadcast s data = Except.ok
      { s with wire := (s.wire ++ List.map (fun c => (c.id, Message.event data))
          (List.filter (fun c => decide (c.readyState = ReadyState.OPEN)) s.clients)) } :=
  broadcast_eq s data

/-- C8 fails as stated: after three viewers connected and the second started
closing, `broadcast` passes the closing viewer over and it is still a member
of `wss.clients` afterwards; the two open viewers get the event. -/
theorem closing_viewer_not_removed :
    run resolveAll ServerState.initial
        [Input.connect, Input.connect, Input.connect, Input.closing 1] =
      Except.ok closingViewer ∧
    ∃ s1, broadcast closingViewer (requestConnectionData assetRequest ⟨48, 2, "FR", "Paris"⟩ 5)
        = Except.ok s1 ∧
      (⟨1, ReadyState.CLOSING⟩ : Client) ∈ s1.clients ∧
      s1.clients = closingViewer.clients ∧
      s1.wire = closingViewer.wire ++
        [(0, Message.event (requestConnectionData assetRequest ⟨48, 2, "FR", "Paris"⟩ 5)),
         (2, Message.event (requestConnectionData assetRequest ⟨48, 2, "FR", "Paris"⟩ 5))] := by
  refine ⟨?_, _, broadcast_eq _ _, ?_, rfl, ?_⟩
  · simp [run, step, onConnection, wsSend, onClosing, ServerState.initial, closingViewer]
  · simp [closingViewer]
  · simp [closingViewer, eventSends, openClients]

/-! ## What one socket receives -/

theorem received_append (s : ServerState) (extra : List (Nat × Message)) (id : Nat) :
    received { s with wire := s.wire ++ extra } id =
      received s id ++ (extra.filter fun p => decide (p.1 = id)).map Prod.snd := by
  simp [received]

theorem liveEvents_append (a b : List Message) :
    liveEvents (a ++ b) = liveEvents a ++ liveEvents b := by
  induction a with
  | nil => rfl
  | cons m rest ih =>
    cases m with
    | init d => simpa [liveEvents] using ih
    | event e => simpa [liveEvents] using ih

theorem liveEvents_map_event (evs : List ConnectionData) :
    liveEvents (evs.map Message.event) = evs := by
  induction evs with
  | nil => rfl
  | cons e rest ih => simp [liveEvents, ih]

theorem mem_eventSends (clients : List Client) (e : ConnectionData) (p : Nat × Message)
    (h : p ∈ eventSends clients e) : ∃ c ∈ clients, c.id = p.1 := by
  simp only [eventSends, openClients, List.mem_map, List.mem_filter] at h
  obtain ⟨c, ⟨hc, _⟩, rfl⟩ := h
  exact ⟨c, hc, rfl⟩

theorem eventSends_filter_of_not_mem (clients : List Client) (e : ConnectionData) (id : Nat)
    (h : id ∉ clients.map Client.id) :
    (eventSends clients e).filter (fun p => decide (p.1 = id)) = [] := by
  rw [List.filter_eq_nil_iff]
  intro p hp
  obtain ⟨c, hc, hid⟩ := mem_eventSends clients e p hp
  simp only [decide_eq_true_eq]
  intro hpid
  exact h (List.mem_map.mpr ⟨c, hc, hid.trans hpid⟩)

theorem eventSends_cons (c : Client) (rest : List Client) (e : ConnectionData) :
    eventSends (c :: rest) e =
      if c.readyState = ReadyState.OPEN then (c.id, Message.event e) :: eventSends rest e
      else eventSends rest e := by
  by_cases h : c.readyState = ReadyState.OPEN <;> simp [eventSends, openClients, h]

/-- A socket gets an event at most once from one `broadcast`. -/
theorem eventSends_filter (clients : List Client) (e : ConnectionData) (id : Nat)
    (h : (clients.map Client.id).Nodup) :
    ((eventSends clients e).filter fun p => decide (p.1 = id)).map Prod.snd = [] ∨
    ((eventSends clients e).filter fun p => decide (p.1 = id)).map Prod.snd
      = [Message.event e] := by
  induction clients with
  | nil => left; simp [eventSends, openClients]
  | cons c rest ih =>
    rw [List.map_cons, List.nodup_cons] at h
    rw [eventSends_cons]
    by_cases ho : c.readyState = ReadyState.OPEN
    · rw [if_pos ho]
      by_cases hid : c.id = id
      · right
        rw [List.filter_cons_of_pos (by simpa using hid),
          eventSends_filter_of_not_mem rest e id (hid ▸ h.1)]
        rfl
      · rw [List.filter_cons_of_neg (by simpa using hid)]
        exact ih h.2
    · rw [if_neg ho]
      exact ih h.2

theorem inv_initial : Inv ServerState.initial := by
  simp [Inv, ServerState.initial]

theorem inv_published (s : ServerState) (e : ConnectionData) (h : Inv s) :
    Inv (published s e) := by
  obtain ⟨h1, h2, h3⟩ := h
  refine ⟨h1, h2, ?_⟩
  intro p hp
  simp only [published, List.mem_append] at hp
  rcases hp with hp | hp
  · exact h3 p hp
  · obtain ⟨c, hc, hid⟩ := mem_eventSends s.clients e p hp
    exact hid ▸ h2 c hc

theorem inv_onClosing (s : ServerState) (id : Nat) (h : Inv s) : Inv (onClosing s id) := by
  obtain ⟨h1, h2, h3⟩ := h
  have hids : (onClosing s id).clients.map Client.id = s.clients.map Client.id := by
    simp only [onClosing, List.map_map]
    apply List.map_congr_left
    intro c _
    by_cases hc : c.id = id <;> simp [hc]
  refine ⟨by rw [hids]; exact h1, ?_, h3⟩
  intro c hc
  have : c.id ∈ (onClosing s id).clients.map Client.id := List.mem_map.mpr ⟨c, hc, rfl⟩
  rw [hids] at this
  obtain ⟨c0, hc0, hid⟩ := List.mem_map.mp this
  exact hid ▸ h2 c0 hc0

theorem inv_onClose (s : ServerState) (id : Nat) (h : Inv s) : Inv (onClose s id) := by
  obtain ⟨h1, h2, h3⟩ := h
  refine ⟨?_, ?_, h3⟩
  · exact List.Nodup.sublist (List.Sublist.map _ (List.filter_sublist _)) h1
  · intro c hc
    exact h2 c (List.mem_of_mem_filter hc)

/-- The state after `onConnection`. -/
theorem inv_connected (s : ServerState) (h : Inv s) :
    Inv { s with clients := s.clients ++ [⟨s.nextId, ReadyState.OPEN⟩],
                 wire := s.wire ++ [(s.nextId, Message.init s.recentConnections)],
                 nextId := s.nextId + 1 } := by
  obtain ⟨h1, h2, h3⟩ := h
  refine ⟨?_, ?_, ?_⟩
  · simp only [List.map_append, List.map_cons, List.map_nil]
    rw [List.nodup_append]
    refine ⟨h1, List.nodup_singleton _, ?_⟩
    intro a ha hb
    obtain ⟨c, hc, hid⟩ := List.mem_map.mp ha
    have := h2 c hc
    simp only [List.mem_singleton] at hb
    omega
  · intro c hc
    simp only [List.mem_append, List.mem_singleton] at hc
    rcases hc with hc | hc
    · have := h2 c hc
      show c.id < s.nextId + 1
      omega
    · subst hc
      show s.nextId < s.nextId + 1
      omega
  · intro p hp
    simp only [List.mem_append, List.mem_singleton] at hp
    rcases hp with hp | hp
    · have := h3 p hp
      show p.1 < s.nextId + 1
      omega
    · subst hp
      show s.nextId < s.nextId + 1
      omega

/-- What one turn of the event loop sends to socket `id`: nothing, or the
event the turn appends, or the initial batch when the turn connects `id`. -/
theorem step_received (lookup : String → Option Geo) (s s1 : ServerState) (i : Input)
    (id : Nat) (hinv : Inv s) (h : step lookup s i = Except.ok s1) :
    Inv s1 ∧ s.nextId ≤ s1.nextId ∧
    ∃ msgs, received s1 id = received s id ++ msgs ∧
      (msgs = [] ∨ (∃ e, eventOf lookup i = some e ∧ msgs = [Message.event e]) ∨
        (i = Input.connect ∧ id = s.nextId ∧ msgs = [Message.init s.recentConnections])) := by
  cases he : eventOf lookup i with
  | some e =>
    rw [step_of_event lookup s i e he] at h
    cases h
    refine ⟨inv_published s e hinv, Nat.le_refl _, _, received_append _ _ id, ?_⟩
    rcases eventSends_filter s.clients e id hinv.1 with h0 | h0
    · exact Or.inl h0
    · exact Or.inr (Or.inl ⟨e, rfl, h0⟩)
  | none =>
    cases i with
    | request req now =>
      rw [step_request_of_no_event lookup s req now he] at h
      cases h
      exact ⟨hinv, Nat.le_refl _, [], by simp, Or.inl rfl⟩
    | logLine line now =>
      rw [step_logLine_of_no_event lookup s line now he] at h
      cases h
      exact ⟨hinv, Nat.le_refl _, [], by simp, Or.inl rfl⟩
    | connect =>
      rw [step, onConnection_eq] at h
      cases h
      refine ⟨inv_connected s hinv, Nat.le_succ _,
        ([(s.nextId, Message.init s.recentConnections)].filter
          (fun p => decide (p.1 = id))).map Prod.snd, by simp [received], ?_⟩
      by_cases hid : s.nextId = id
      · right; right
        refine ⟨rfl, hid.symm, ?_⟩
        simp [hid]
      · left
        simp [hid]
    | closing cid =>
      cases h
      exact ⟨inv_onClosing s cid hinv, Nat.le_refl _, [], by simp [received, onClosing],
        Or.inl rfl⟩
    | close cid =>
      cases h
      exact ⟨inv_onClose s cid hinv, Nat.le_refl _, [], by simp [received, onClose],
        Or.inl rfl⟩

theorem appended_cons (lookup : String → Option Geo) (i : Input) (rest : List Input) :
    appended lookup (i :: rest) = (eventOf lookup i).toList ++ appended lookup rest := by
  cases he : eventOf lookup i <;> simp [appended, List.filterMap_cons, he]

/-- What a run of the event loop sends to socket `id`. -/
theorem run_received (lookup : String → Option Geo) (s : ServerState) (inputs : List Input)
    (id : Nat) (hinv : Inv s) :
    ∃ s1, run lookup s inputs = Except.ok s1 ∧ Inv s1 ∧ s.nextId ≤ s1.nextId ∧
      ∃ msgs, received s1 id = received s id ++ msgs ∧
        (liveEvents msgs).Sublist (appended lookup inputs) ∧
        (id < s.nextId → msgs = (liveEvents msgs).map Message.event) := by
  induction inputs generalizing s with
  | nil => exact ⟨s, rfl, hinv, Nat.le_refl _, [], by simp, by simp [liveEvents], by
      intro _; rfl⟩
  | cons i rest ih =>
    obtain ⟨s0, h0⟩ := step_ok lookup s i
    obtain ⟨hinv0, hle0, msgs0, hr0, hcase⟩ := step_received lookup s s0 i id hinv h0
    obtain ⟨s1, h1, hinv1, hle1, msgs1, hr1, hsub1, hev1⟩ := ih s0 hinv0
    rw [run_cons lookup s s0 i rest h0]
    refine ⟨s1, h1, hinv1, Nat.le_trans hle0 hle1, msgs0 ++ msgs1, ?_, ?_, ?_⟩
    · rw [hr1, hr0, List.append_assoc]
    · rw [liveEvents_append, appended_cons]
      rcases hcase with hm | ⟨e, he, hm⟩ | ⟨hi, _, hm⟩
      · subst hm
        simpa [liveEvents] using List.Sublist.trans hsub1 (List.sublist_append_right _ _)
      · subst hm
        rw [he]
        simpa [liveEvents] using hsub1
      · subst hm
        subst hi
        simpa [liveEvents, eventOf] using hsub1
    · intro hid
      have hev := hev1 (Nat.lt_of_lt_of_le hid hle0)
      rw [liveEvents_append, List.map_append, ← hev]
      rcases hcase with hm | ⟨e, _, hm⟩ | ⟨_, hi, _⟩
      · subst hm; rfl
      · subst hm; rfl
      · omega

/-- C9. In every run from the start-up state, the live events a socket
receives are a subsequence of the events in the order they were appended to
`recentConnections`, so two events are received in the order of their
appends; and a turn of the event loop that appends an event sends it, in that
same turn, to every open client, while a turn that appends nothing leaves the
history alone and sends no live event. -/
theorem live_events_in_append_order (lookup : String → Option Geo) (inputs : List Input)
    (id : Nat) :
    (∃ s, run lookup ServerState.initial inputs = Except.ok s ∧
      (liveEvents (received s id)).Sublist (appended lookup inputs)) ∧
    (∀ (s : ServerState) (i : Input) (e : ConnectionData), eventOf lookup i = some e →
      ∃ s1, step lookup s i = Except.ok s1 ∧
        s1.recentConnections = unshiftPop e s.recentConnections ∧
        s1.wire = s.wire ++ eventSends s.clients e) ∧
    (∀ (s : ServerState) (i : Input), eventOf lookup i = none →
      ∃ s1, step lookup s i = Except.ok s1 ∧
        s1.recentConnections = s.recentConnections ∧
        liveEvents (received s1 id) = liveEvents (received s id)) := by
  refine ⟨?_, ?_, ?_⟩
  · obtain ⟨s1, h1, _, _, msgs, hr, hsub, _⟩ :=
      run_received lookup ServerState.initial inputs id inv_initial
    refine ⟨s1, h1, ?_⟩
    rw [hr]
    simpa [received, ServerState.initial, liveEvents] using hsub
  · intro s i e he
    exact ⟨published s e, step_of_event lookup s i e he, rfl, rfl⟩
  · intro s i he
    cases i with
    | request req now => exact ⟨s, step_request_of_no_event lookup s req now he, rfl, rfl⟩
    | logLine line now => exact ⟨s, step_logLine_of_no_event lookup s line now he, rfl, rfl⟩
    | connect =>
      refine ⟨_, onConnection_eq s, rfl, ?_⟩
      have hr := received_append s [(s.nextId, Message.init s.recentConnections)] id
      simp only [received] at hr ⊢
      rw [hr, liveEvents_append]
      by_cases hid : s.nextId = id <;> simp [hid, liveEvents]
    | closing cid => exact ⟨_, rfl, rfl, rfl⟩
    | close cid => exact ⟨_, rfl, rfl, rfl⟩

theorem received_of_fresh (s : ServerState) (h : Inv s) : received s s.nextId = [] := by
  simp only [received, List.map_eq_nil_iff, List.filter_eq_nil_iff, decide_eq_true_eq]
  intro p hp hid
  have := h.2.2 p hp
  omega

/-- C7. Let a viewer connect in a state `s` the server reaches from start-up,
and let the server run on with any inputs. Before the connection the socket
has received nothing; afterwards the messages it has received are the message
`init` carrying `recentConnections` of `s`, newest first, followed by live
events only. The first message is therefore the history at connect time, and
it stays the same whatever is appended later. -/
theorem initial_batch_first (lookup : String → Option Geo) (before after : List Input) :
    ∃ s s1, run lookup ServerState.initial before = Except.ok s ∧
      run lookup s (Input.connect :: after) = Except.ok s1 ∧
      run lookup ServerState.initial (before ++ Input.connect :: after) = Except.ok s1 ∧
      received s s.nextId = [] ∧
      ∃ evs : List ConnectionData, received s1 s.nextId =
        Message.init s.recentConnections :: evs.map Message.event := by
  obtain ⟨s, hs, hinv, _, _⟩ := run_received lookup ServerState.initial before 0 inv_initial
  have hstep : step lookup s Input.connect = Except.ok
      { s with clients := s.clients ++ [⟨s.nextId, ReadyState.OPEN⟩],
               wire := s.wire ++ [(s.nextId, Message.init s.recentConnections)],
               nextId := s.nextId + 1 } := onConnection_eq s
  obtain ⟨s1, h1, _, _, msgs, hr, _, hev⟩ :=
    run_received lookup _ after s.nextId (inv_connected s hinv)
  have hrun : run lookup s (Input.connect :: after) = Except.ok s1 := by
    rw [run_cons lookup s _ Input.connect after hstep]
    exact h1
  refine ⟨s, s1, hs, hrun, ?_, received_of_fresh s hinv, liveEvents msgs, ?_⟩
  · rw [run_append lookup ServerState.initial s before _ hs]
    exact hrun
  · rw [hr, ← hev (Nat.lt_succ_self _)]
    have h0 := received_of_fresh s hinv
    simp only [received] at h0
    simp [received, h0]

/-! ## The display window of the viewer -/

theorem arcsOf_length (g : Globe) (random : Nat → ℚ) (k : Nat) (queue : List QueuedConnection) :
    (arcsOf g random k queue).length = queue.length := by
  induction queue generalizing k with
  | nil => rfl
  | cons c rest ih => simp [arcsOf, ih]

theorem window_tail {α : Type} (l1 l2 : List α) (h : l1.length = 101) :
    (l1.tail ++ l2).drop ((l1.tail ++ l2).length - 100) =
      (l1 ++ l2).drop ((l1 ++ l2).length - 100) := by
  cases l1 with
  | nil => simp at h
  | cons x xs =>
    simp only [List.length_cons] at h
    have hxs : xs.length = 100 := by omega
    simp only [List.tail_cons, List.cons_append, List.length_cons, List.length_append, hxs]
    have e1 : 100 + l2.length - 100 = l2.length := by omega
    have e2 : 100 + l2.length + 1 - 100 = l2.length + 1 := by omega
    rw [e1, e2, List.drop_succ_cons]

theorem tickLoop_eq (g : Globe) (random : Nat → ℚ) (k : Nat) (queue : List QueuedConnection)
    (arcs : List Arc) (points : List Point) (hlen : arcs.length = points.length)
    (hcap : arcs.length ≤ 100) :
    tickLoop g random k queue arcs points =
      ((arcs ++ arcsOf g random k queue).drop
          ((arcs ++ arcsOf g random k queue).length - 100),
       (points ++ queue.map pointOf).drop ((points ++ queue.map pointOf).length - 100)) := by
  induction queue generalizing k arcs points with
  | nil =>
    have h1 : arcs.length - 100 = 0 := by omega
    have h2 : points.length - 100 = 0 := by omega
    simp [tickLoop, arcsOf, h1, h2]
  | cons c rest ih =>
    simp only [tickLoop, arcsOf, List.map_cons, MAX_CONNECTIONS_DISPLAYED]
    have happ1 : arcs ++ arcOf g c (random (2 * k)) (random (2 * k + 1)) ::
        arcsOf g random (k + 1) rest =
        (arcs ++ [arcOf g c (random (2 * k)) (random (2 * k + 1))]) ++
          arcsOf g random (k + 1) rest := by simp
    have happ2 : points ++ pointOf c :: rest.map pointOf =
        (points ++ [pointOf c]) ++ rest.map pointOf := by simp
    rw [happ1, happ2]
    by_cases hfull : (arcs ++ [arcOf g c (random (2 * k)) (random (2 * k + 1))]).length > 100
    · rw [if_pos hfull]
      have ha : (arcs ++ [arcOf g c (random (2 * k)) (random (2 * k + 1))]).length = 101 := by
        simp at hfull ⊢; omega
      have hp : (points ++ [pointOf c]).length = 101 := by
        simp at ha ⊢; omega
      rw [ih (k + 1) _ _ (by simp [List.length_tail, ha, hp]) (by simp [List.length_tail, ha]),
        window_tail _ _ ha, window_tail _ _ hp]
    · rw [if_neg hfull]
      rw [ih (k + 1) _ _ (by simp [hlen]) (by simpa using hfull)]

/-- C10. For a display set within its capacity (as many arcs as points, at
most `MAX_CONNECTIONS_DISPLAYED`), one call of `tick` empties
`connectionQueue` and leaves in `arcsData` and in `pointsData` the last
`min 100 (old + N)` entries of the old entries followed by the entries of the
`N` queued connections in queue order. When the display set is at capacity
and `N ≤ 100`, both lists have exactly 100 entries: the old entries without
their `N` oldest, in their old order, followed by the `N` new entries in
queue order. -/
theorem tick_display_window (g : Globe) (random : Nat → ℚ)
    (hlen : g.arcsData.length = g.pointsData.length)
    (hcap : g.arcsData.length ≤ MAX_CONNECTIONS_DISPLAYED) :
    (g.tick random).connectionQueue = [] ∧
    (g.tick random).arcsData =
      lastN (min MAX_CONNECTIONS_DISPLAYED (g.arcsData.length + g.connectionQueue.length))
        (g.arcsData ++ arcsOf g random 0 g.connectionQueue) ∧
    (g.tick random).pointsData =
      lastN (min MAX_CONNECTIONS_DISPLAYED (g.pointsData.length + g.connectionQueue.length))
        (g.pointsData ++ g.connectionQueue.map pointOf) ∧
    (g.arcsData.length = MAX_CONNECTIONS_DISPLAYED →
      g.connectionQueue.length ≤ MAX_CONNECTIONS_DISPLAYED →
      (g.tick random).arcsData.length = MAX_CONNECTIONS_DISPLAYED ∧
      (g.tick random).pointsData.length = MAX_CONNECTIONS_DISPLAYED ∧
      (g.tick random).arcsData =
        g.arcsData.drop g.connectionQueue.length ++ arcsOf g random 0 g.connectionQueue ∧
      (g.tick random).pointsData =
        g.pointsData.drop g.connectionQueue.length ++ g.connectionQueue.map pointOf) := by
  simp only [MAX_CONNECTIONS_DISPLAYED] at *
  have hloop := tickLoop_eq g random 0 g.connectionQueue g.arcsData g.pointsData hlen hcap
  have harcs : (g.tick random).arcsData =
      (g.arcsData ++ arcsOf g random 0 g.connectionQueue).drop
        ((g.arcsData ++ arcsOf g random 0 g.connectionQueue).length - 100) := by
    simp [Globe.tick, hloop]
  have hpoints : (g.tick random).pointsData =
      (g.pointsData ++ g.connectionQueue.map pointOf).drop
        ((g.pointsData ++ g.connectionQueue.map pointOf).length - 100) := by
    simp [Globe.tick, hloop]
  refine ⟨rfl, ?_, ?_, ?_⟩
  · rw [harcs, lastN]
    congr 1
    simp only [List.length_append, arcsOf_length]
    omega
  · rw [hpoints, lastN]
    congr 1
    simp only [List.length_append, List.length_map]
    omega
  · intro hfull hq
    have hpfull : g.pointsData.length = 100 := by omega
    have e1 : (g.arcsData ++ arcsOf g random 0 g.connectionQueue).length - 100 =
        g.connectionQueue.length := by
      simp only [List.length_append, arcsOf_length]; omega
    have e2 : (g.pointsData ++ g.connectionQueue.map pointOf).length - 100 =
        g.connectionQueue.length := by
      simp only [List.length_append, List.length_map]; omega
    have h3 : (g.tick random).arcsData =
        g.arcsData.drop g.connectionQueue.length ++ arcsOf g random 0 g.connectionQueue := by
      rw [harcs, e1, List.drop_append_of_le_length (by omega)]
    have h4 : (g.tick random).pointsData =
        g.pointsData.drop g.connectionQueue.length ++ g.connectionQueue.map pointOf := by
      rw [hpoints, e2, List.drop_append_of_le_length (by omega)]
    refine ⟨?_, ?_, h3, h4⟩
    · rw [h3]; simp only [List.length_append, List.length_drop, arcsOf_length]; omega
    · rw [h4]; simp only [List.length_append, List.length_drop, List.length_map]; omega

theorem tick_display_window_witness :
    (fullGlobe.tick fun _ => 0).connectionQueue = [] ∧
    (fullGlobe.tick fun _ => 0).pointsData.length = 100 ∧
    (fullGlobe.tick fun _ => 0).pointsData =
      fullGlobe.pointsData.drop 2 ++ fullGlobe.connectionQueue.map pointOf :=
  have h := tick_display_window fullGlobe (fun _ => 0)
    (by simp [fullGlobe]) (by simp [fullGlobe, MAX_CONNECTIONS_DISPLAYED])
  have h2 := h.2.2.2 (by simp [fullGlobe, MAX_CONNECTIONS_DISPLAYED])
    (by simp [fullGlobe, MAX_CONNECTIONS_DISPLAYED])
  ⟨h.1, h2.2.1, h2.2.2.2⟩

/-! ## The log pattern -/

theorem allTails_head (P : List Char → Prop) (s : List Char) (h : allTails P s) : P s := by
  cases s with
  | nil => exact h
  | cons c r => exact h.1

theorem allTails_mono (P Q : List Char → Prop) (hPQ : ∀ s, P s → Q s) (s : List Char)
    (h : allTails P s) : allTails Q s := by
  induction s with
  | nil => exact hPQ _ h
  | cons c r ih => exact ⟨hPQ _ h.1, ih h.2⟩

/-- Characters on which the property holds whatever follows can be put in
front. -/
theorem allTails_append (P : List Char → Prop) (x y : List Char)
    (hx : ∀ c ∈ x, ∀ r, P (c :: r)) (hy : allTails P y) : allTails P (x ++ y) := by
  induction x with
  | nil => exact hy
  | cons c r ih =>
    exact ⟨hx c (List.mem_cons_self _ _) _, ih fun d hd => hx d (List.mem_cons_of_mem _ hd)⟩

/-- `cls+` fails when the continuation fails at every position. -/
theorem plusK_none {α : Type} (cls : Char → Bool) (k : List Char → List Char → Option α)
    (s : List Char) (acc : List Char)
    (h : allTails (fun r => ∀ taken, k taken r = none) s) : plusK cls k acc s = none := by
  induction s generalizing acc with
  | nil => rfl
  | cons c r ih =>
    simp only [plusK]
    split
    · rw [ih _ h.2]
      exact allTails_head _ _ h.2 _
    · rfl

/-- A property of all results of the continuation is a property of the result
of `cls+`. -/
theorem plusK_inv {α : Type} (P : Option α → Prop) (hnone : P none) (cls : Char → Bool)
    (k : List Char → List Char → Option α) (s : List Char) (acc : List Char)
    (h : allTails (fun r => ∀ taken, P (k taken r)) s) : P (plusK cls k acc s) := by
  induction s generalizing acc with
  | nil => exact hnone
  | cons c r ih =>
    simp only [plusK]
    split
    · have hin := ih (acc ++ [c]) h.2
      cases hp : plusK cls k (acc ++ [c]) r with
      | some v => rw [hp] at hin; exact hin
      | none => exact allTails_head _ _ h.2 _
    · exact hnone

/-- `cls+` succeeds when the continuation succeeds after some non-empty run of
the class. -/
theorem plusK_isSome {α : Type} (cls : Char → Bool) (k : List Char → List Char → Option α)
    (w rest acc : List Char) (hw : ∀ c ∈ w, cls c = true) (hne : w ≠ [])
    (hk : (k (acc ++ w) rest).isSome) : (plusK cls k acc (w ++ rest)).isSome := by
  induction w generalizing acc with
  | nil => exact absurd rfl hne
  | cons c w1 ih =>
    have hc : cls c = true := hw c (List.mem_cons_self _ _)
    simp only [List.cons_append, plusK, hc, if_true]
    cases w1 with
    | nil =>
      cases hp : plusK cls k (acc ++ [c]) ([] ++ rest) with
      | some v => rfl
      | none => simpa using hk
    | cons c2 w2 =>
      have hin := ih (acc ++ [c]) (fun d hd => hw d (List.mem_cons_of_mem _ hd))
        (List.cons_ne_nil _ _) (by simpa using hk)
      cases hp : plusK cls k (acc ++ [c]) (c2 :: w2 ++ rest) with
      | some v => rfl
      | none => rw [hp] at hin; simp at hin

theorem plusK_cons {α : Type} (cls : Char → Bool) (k : List Char → List Char → Option α)
    (acc : List Char) (c : Char) (s : List Char) (hc : cls c = true) :
    plusK cls k acc (c :: s) =
      match plusK cls k (acc ++ [c]) s with
      | some r => some r
      | none => k (acc ++ [c]) s := by
  simp [plusK, hc]

/-- `cls+` on a run of the class that ends at a character outside the class
(or at the end of the text), when the continuation cannot start with a
character of the class: the whole run is taken. -/
theorem plusK_run {α : Type} (cls : Char → Bool) (k : List Char → List Char → Option α)
    (w rest acc : List Char) (hw : ∀ c ∈ w, cls c = true) (hne : w ≠ [])
    (hrest : ∀ c r, rest = c :: r → cls c = false)
    (hk : ∀ taken c r, cls c = true → k taken (c :: r) = none) :
    plusK cls k acc (w ++ rest) = k (acc ++ w) rest := by
  induction w generalizing acc with
  | nil => exact absurd rfl hne
  | cons c w1 ih =>
    have hc : cls c = true := hw c (List.mem_cons_self _ _)
    rw [List.cons_append, plusK_cons cls k acc c _ hc]
    cases w1 with
    | nil =>
      have hin : plusK cls k (acc ++ [c]) ([] ++ rest) = none := by
        cases rest with
        | nil => rfl
        | cons d r => simp [plusK, hrest d r rfl]
      rw [hin]
      rfl
    | cons c2 w2 =>
      have hin := ih (acc ++ [c]) (fun d hd => hw d (List.mem_cons_of_mem _ hd))
        (List.cons_ne_nil _ _)
      have hc2 : cls c2 = true := hw c2 (by simp)
      rw [hin]
      cases hv : k (acc ++ [c] ++ c2 :: w2) rest with
      | some v => simpa using hv.symm
      | none =>
        simp only [List.cons_append]
        rw [hk _ c2 _ hc2]
        simpa using hv.symm

/-- The last `cls+` of a pattern on a text that is a run of the class. -/
theorem plusK_last {α : Type} (cls : Char → Bool) (k : List Char → List Char → Option α)
    (w acc : List Char) (v : α) (hw : ∀ c ∈ w, cls c = true) (hne : w ≠ [])
    (hk : k (acc ++ w) [] = some v) : plusK cls k acc w = some v := by
  induction w generalizing acc with
  | nil => exact absurd rfl hne
  | cons c w1 ih =>
    have hc : cls c = true := hw c (List.mem_cons_self _ _)
    simp only [plusK, hc, if_true]
    cases w1 with
    | nil => simpa [plusK] using hk
    | cons c2 w2 =>
      rw [ih (acc ++ [c]) (fun d hd => hw d (List.mem_cons_of_mem _ hd))
        (List.cons_ne_nil _ _) (by simpa using hk)]

theorem matchItems_lit (c : Char) (items : List RegexItem) (s : List Char) :
    matchItems (RegexItem.lit c :: items) (c :: s) = matchItems items s := by
  simp [matchItems]

theorem matchItems_lit_ne (c d : Char) (items : List RegexItem) (s : List Char) (h : d ≠ c) :
    matchItems (RegexItem.lit c :: items) (d :: s) = none := by
  simp [matchItems, h]

/-- A group `cls+` followed by a literal that is not in the class. -/
theorem matchItems_plus_lit (cls : Char → Bool) (capture : Bool) (d : Char)
    (items : List RegexItem) (w s : List Char) (hw : ∀ c ∈ w, cls c = true) (hne : w ≠ [])
    (hd : cls d = false) :
    matchItems (RegexItem.plus cls capture :: RegexItem.lit d :: items) (w ++ d :: s) =
      match matchItems items s with
      | some caps => some (if capture then w :: caps else caps)
      | none => none := by
  rw [matchItems, plusK_run cls _ w (d :: s) [] hw hne]
  · simp [matchItems]
  · intro c r h
    cases h
    exact hd
  · intro taken c r hc
    have hcd : c ≠ d := fun h => by rw [h, hd] at hc; cases hc
    simp [matchItems, hcd]

theorem matchItems_plus_last (cls : Char → Bool) (w : List Char)
    (hw : ∀ c ∈ w, cls c = true) (hne : w ≠ []) :
    matchItems [RegexItem.plus cls true] w = some [w] := by
  rw [matchItems]
  exact plusK_last cls _ w [] [w] hw hne (by simp [matchItems])

theorem matchItems_plus_nil (cls : Char → Bool) (capture : Bool) (items : List RegexItem) :
    matchItems (RegexItem.plus cls capture :: items) [] = none := by
  simp [matchItems, plusK]

theorem matchItems_plus_ne (cls : Char → Bool) (capture : Bool) (items : List RegexItem)
    (d : Char) (s : List Char) (hd : cls d = false) :
    matchItems (RegexItem.plus cls capture :: items) (d :: s) = none := by
  simp [matchItems, plusK, hd]

theorem cls_ne (cls : Char → Bool) (c d : Char) (hc : cls c = true) (hd : cls d = false) :
    c ≠ d := fun h => by rw [h, hd] at hc; cases hc

/-- The request part of a log line matches the request part of the pattern,
with the groups method, path, status and size. -/
theorem matchItems_patternRequest (method path version status size : List Char)
    (hm : ∀ c ∈ method, nonSpace c = true) (hm0 : method ≠ [])
    (hp : ∀ c ∈ path, nonSpace c = true) (hp0 : path ≠ [])
    (hv : ∀ c ∈ version, digitOrDot c = true) (hv0 : version ≠ [])
    (hst : ∀ c ∈ status, digit c = true) (hst0 : status ≠ [])
    (hsz : ∀ c ∈ size, digit c = true) (hsz0 : size ≠ []) :
    matchItems patternRequest (requestChars method path version status size) =
      some [method, path, status, size] := by
  unfold patternRequest requestChars
  rw [matchItems_lit, matchItems_lit,
    matchItems_plus_lit nonSpace true ' ' _ method _ hm hm0 (by decide),
    matchItems_plus_lit nonSpace true ' ' _ path _ hp hp0 (by decide),
    matchItems_lit, matchItems_lit, matchItems_lit, matchItems_lit, matchItems_lit,
    matchItems_plus_lit digitOrDot false '"' _ version _ hv hv0 (by decide),
    matchItems_lit,
    matchItems_plus_lit digit true ' ' _ status _ hst hst0 (by decide),
    matchItems_plus_last digit size hsz hsz0]
  simp

/-- The tail of the pattern on a text that opens a bracket: the timestamp
group is the text up to the next closing bracket. -/
theorem matchItems_patternTail_open (a method path version status size : List Char)
    (ha : ∀ c ∈ a, notRBracket c = true)
    (hreq : matchItems patternRequest (requestChars method path version status size) =
      some [method, path, status, size]) :
    goodCaptures method path status size
      (matchItems patternTail
        (' ' :: '[' :: (a ++ ']' :: requestChars method path version status size))) := by
  unfold patternTail
  rw [matchItems_lit, matchItems_lit]
  cases a with
  | nil =>
    left
    exact matchItems_plus_ne _ _ _ _ _ (by decide)
  | cons c a1 =>
    right
    rw [matchItems_plus_lit notRBracket true ']' _ (c :: a1) _ ha (List.cons_ne_nil _ _)
      (by decide), hreq]
    exact ⟨c :: a1, by simp⟩

theorem matchItems_patternTail_nil : matchItems patternTail [] = none := by
  simp [patternTail, matchItems]

theorem matchItems_patternTail_head (c : Char) (s : List Char) (h : c ≠ ' ') :
    matchItems patternTail (c :: s) = none :=
  matchItems_lit_ne _ _ _ _ h

theorem matchItems_patternTail_single : matchItems patternTail [' '] = none := by
  simp [patternTail, matchItems]

theorem matchItems_patternTail_second (c : Char) (s : List Char) (h : c ≠ '[') :
    matchItems patternTail (' ' :: c :: s) = none := by
  unfold patternTail
  rw [matchItems_lit]
  exact matchItems_lit_ne _ _ _ _ h

/-- Before the closing bracket of the timestamp, the tail of the pattern
fails or yields the groups of the request. -/
theorem matchItems_patternTail_before (a method path version status size : List Char)
    (ha : ∀ c ∈ a, notRBracket c = true)
    (hreq : matchItems patternRequest (requestChars method path version status size) =
      some [method, path, status, size]) :
    goodCaptures method path status size
      (matchItems patternTail (a ++ ']' :: requestChars method path version status size)) := by
  cases a with
  | nil => exact Or.inl (matchItems_patternTail_head _ _ (by decide))
  | cons c a1 =>
    by_cases hc : c = ' '
    · subst hc
      cases a1 with
      | nil => exact Or.inl (matchItems_patternTail_second _ _ (by decide))
      | cons c2 a2 =>
        by_cases hc2 : c2 = '['
        · subst hc2
          exact matchItems_patternTail_open a2 method path version status size
            (fun d hd => ha d (by simp [hd])) hreq
        · exact Or.inl (matchItems_patternTail_second _ _ hc2)
    · exact Or.inl (matchItems_patternTail_head _ _ hc)

/-- No closing bracket followed by a request starts in the text from the
blank before `HTTP/` on: that text has no closing bracket. -/
theorem close_fails_after_path (version status size : List Char)
    (hv : ∀ c ∈ version, digitOrDot c = true) (hst : ∀ c ∈ status, digit c = true)
    (hsz : ∀ c ∈ size, digit c = true) :
    allTails (fun r => matchItems (RegexItem.lit ']' :: patternRequest) r = none)
      (' ' :: 'H' :: 'T' :: 'T' :: 'P' :: '/' ::
        (version ++ '"' :: ' ' :: (status ++ ' ' :: size))) := by
  have hne : ∀ (c : Char) (r : List Char), c ≠ ']' →
      matchItems (RegexItem.lit ']' :: patternRequest) (c :: r) = none :=
    fun c r h => matchItems_lit_ne _ _ _ _ h
  have h0 : allTails (fun r => matchItems (RegexItem.lit ']' :: patternRequest) r = none) [] := by
    simp [allTails, matchItems]
  have h1 := allTails_append _ size []
    (fun c hc r => hne c r (cls_ne digit c ']' (hsz c hc) (by decide))) h0
  rw [List.append_nil] at h1
  have h2 : allTails (fun r => matchItems (RegexItem.lit ']' :: patternRequest) r = none)
      (' ' :: size) := ⟨hne _ _ (by decide), h1⟩
  have h3 := allTails_append _ status _
    (fun c hc r => hne c r (cls_ne digit c ']' (hst c hc) (by decide))) h2
  have h4 : allTails (fun r => matchItems (RegexItem.lit ']' :: patternRequest) r = none)
      ('"' :: ' ' :: (status ++ ' ' :: size)) :=
    ⟨hne _ _ (by decide), hne _ _ (by decide), h3⟩
  have h5 := allTails_append _ version _
    (fun c hc r => hne c r (cls_ne digitOrDot c ']' (hv c hc) (by decide))) h4
  exact ⟨hne _ _ (by decide), hne _ _ (by decide), hne _ _ (by decide), hne _ _ (by decide),
    hne _ _ (by decide), hne _ _ (by decide), h5⟩

/-- Nor does one start inside the path: a closing bracket of the path is
followed by a character of the path or by the blank before `HTTP/`. -/
theorem close_fails_in_path (path rest : List Char) (hp : ∀ c ∈ path, nonSpace c = true)
    (hrest : allTails (fun r => matchItems (RegexItem.lit ']' :: patternRequest) r = none)
      (' ' :: 'H' :: rest)) :
    allTails (fun r => matchItems (RegexItem.lit ']' :: patternRequest) r = none)
      (path ++ ' ' :: 'H' :: rest) := by
  induction path with
  | nil => exact hrest
  | cons c p2 ih =>
    have hhead : matchItems (RegexItem.lit ']' :: patternRequest)
        (c :: (p2 ++ ' ' :: 'H' :: rest)) = none := by
      by_cases hc : c = ']'
      · subst hc
        rw [matchItems_lit]
        unfold patternRequest
        cases p2 with
        | nil =>
          rw [List.nil_append, matchItems_lit]
          exact matchItems_lit_ne _ _ _ _ (by decide)
        | cons c3 p3 =>
          rw [List.cons_append]
          exact matchItems_lit_ne _ _ _ _
            (cls_ne nonSpace c3 ' ' (hp c3 (by simp)) (by decide))
      · exact matchItems_lit_ne _ _ _ _ hc
    exact ⟨hhead, ih fun d hd => hp d (List.mem_cons_of_mem _ hd)⟩

/-- From the closing bracket of the timestamp on, the tail of the pattern
matches nowhere. -/
theorem patternTail_fails_after_timestamp (method path version status size : List Char)
    (hm : ∀ c ∈ method, nonSpace c = true) (hp : ∀ c ∈ path, nonSpace c = true)
    (hv : ∀ c ∈ version, digitOrDot c = true) (hst : ∀ c ∈ status, digit c = true)
    (hsz : ∀ c ∈ size, digit c = true) :
    allTails (fun r => matchItems patternTail r = none)
      (']' :: requestChars method path version status size) := by
  have hne : ∀ (c : Char) (r : List Char), c ≠ ' ' → matchItems patternTail (c :: r) = none :=
    fun c r h => matchItems_patternTail_head c r h
  have h0 : allTails (fun r => matchItems patternTail r = none) [] :=
    matchItems_patternTail_nil
  have h1 := allTails_append _ size []
    (fun c hc r => hne c r (cls_ne digit c ' ' (hsz c hc) (by decide))) h0
  rw [List.append_nil] at h1
  have h2 : allTails (fun r => matchItems patternTail r = none) (' ' :: size) := by
    refine ⟨?_, h1⟩
    cases size with
    | nil => exact matchItems_patternTail_single
    | cons d r =>
      exact matchItems_patternTail_second _ _ (cls_ne digit d '[' (hsz d (by simp)) (by decide))
  have h3 := allTails_append _ status _
    (fun c hc r => hne c r (cls_ne digit c ' ' (hst c hc) (by decide))) h2
  have h4 : allTails (fun r => matchItems patternTail r = none)
      ('"' :: ' ' :: (status ++ ' ' :: size)) := by
    refine ⟨hne _ _ (by decide), ?_, h3⟩
    cases status with
    | nil => exact matchItems_patternTail_second _ _ (by decide)
    | cons d r =>
      exact matchItems_patternTail_second _ _ (cls_ne digit d '[' (hst d (by simp)) (by decide))
  have h5 := allTails_append _ version _
    (fun c hc r => hne c r (cls_ne digitOrDot c ' ' (hv c hc) (by decide))) h4
  have h6 : allTails (fun r => matchItems patternTail r = none)
      (' ' :: 'H' :: 'T' :: 'T' :: 'P' :: '/' ::
        (version ++ '"' :: ' ' :: (status ++ ' ' :: size))) :=
    ⟨matchItems_patternTail_second _ _ (by decide), hne _ _ (by decide), hne _ _ (by decide),
      hne _ _ (by decide), hne _ _ (by decide), hne _ _ (by decide), h5⟩
  have h7 := allTails_append _ path _
    (fun c hc r => hne c r (cls_ne nonSpace c ' ' (hp c hc) (by decide))) h6
  have h8 : allTails (fun r => matchItems patternTail r = none)
      (' ' :: (path ++ ' ' :: 'H' :: 'T' :: 'T' :: 'P' :: '/' ::
        (version ++ '"' :: ' ' :: (status ++ ' ' :: size)))) := by
    have hhead : matchItems patternTail
        (' ' :: (path ++ ' ' :: 'H' :: 'T' :: 'T' :: 'P' :: '/' ::
          (version ++ '"' :: ' ' :: (status ++ ' ' :: size)))) = none := by
      cases path with
      | nil => exact matchItems_patternTail_second _ _ (by decide)
      | cons c p1 =>
        rw [List.cons_append]
        by_cases hc : c = '['
        · subst hc
          unfold patternTail
          rw [matchItems_lit, matchItems_lit, matchItems]
          apply plusK_none
          refine allTails_mono _ _ ?_ _ (close_fails_in_path p1 _
            (fun d hd => hp d (List.mem_cons_of_mem _ hd))
            (close_fails_after_path version status size hv hst hsz))
          intro r hr taken
          simp only [hr]
        · exact matchItems_patternTail_second _ _ hc
    exact ⟨hhead, h7⟩
  have h9 := allTails_append _ method _
    (fun c hc r => hne c r (cls_ne nonSpace c ' ' (hm c hc) (by decide))) h8
  exact ⟨hne _ _ (by decide), matchItems_patternTail_second _ _ (by decide),
    hne _ _ (by decide), h9⟩

/-- At every position up to the closing bracket of the timestamp, the tail of
the pattern fails or yields the groups of the request. -/
theorem patternTail_good_before (a method path version status size : List Char)
    (ha : ∀ c ∈ a, notRBracket c = true)
    (hm : ∀ c ∈ method, nonSpace c = true) (hp : ∀ c ∈ path, nonSpace c = true)
    (hv : ∀ c ∈ version, digitOrDot c = true) (hst : ∀ c ∈ status, digit c = true)
    (hsz : ∀ c ∈ size, digit c = true)
    (hreq : matchItems patternRequest (requestChars method path version status size) =
      some [method, path, status, size]) :
    allTails (fun r => goodCaptures method path status size (matchItems patternTail r))
      (a ++ ']' :: requestChars method path version status size) := by
  induction a with
  | nil =>
    exact allTails_mono _ _ (fun r hr => Or.inl hr) _
      (patternTail_fails_after_timestamp method path version status size hm hp hv hst hsz)
  | cons c a1 ih =>
    exact ⟨matchItems_patternTail_before (c :: a1) method path version status size ha hreq,
      ih fun d hd => ha d (List.mem_cons_of_mem _ hd)⟩

/-- The pattern matches a well-formed log line, and the groups for IP,
method, path, status and size are those texts. -/
theorem matchItems_pattern_logLine (ip filler timestamp method path version status size :
      List Char)
    (hip : ∀ c ∈ ip, nonSpace c = true) (hip0 : ip ≠ [])
    (hf : ∀ c ∈ filler, dot c = true) (hfb : ∀ c ∈ filler, notRBracket c = true)
    (hf0 : filler ≠ [])
    (ht : ∀ c ∈ timestamp, notRBracket c = true) (ht0 : timestamp ≠ [])
    (hm : ∀ c ∈ method, nonSpace c = true) (hm0 : method ≠ [])
    (hp : ∀ c ∈ path, nonSpace c = true) (hp0 : path ≠ [])
    (hv : ∀ c ∈ version, digitOrDot c = true) (hv0 : version ≠ [])
    (hst : ∀ c ∈ status, digit c = true) (hst0 : status ≠ [])
    (hsz : ∀ c ∈ size, digit c = true) (hsz0 : size ≠ []) :
    ∃ t, matchItems pattern
        (logLineChars ip filler timestamp method path version status size) =
      some [ip, t, method, path, status, size] := by
  have hreq := matchItems_patternRequest method path version status size
    hm hm0 hp hp0 hv hv0 hst hst0 hsz hsz0
  have hopen : matchItems patternTail
      (' ' :: '[' :: (timestamp ++ ']' :: requestChars method path version status size)) =
      some [timestamp, method, path, status, size] := by
    unfold patternTail
    rw [matchItems_lit, matchItems_lit,
      matchItems_plus_lit notRBracket true ']' _ timestamp _ ht ht0 (by decide), hreq]
    simp
  have hdot : ∃ t, matchItems (RegexItem.plus dot false :: patternTail)
      (filler ++ ' ' :: '[' :: (timestamp ++ ']' ::
        requestChars method path version status size)) =
      some [t, method, path, status, size] := by
    rw [matchItems]
    have hgood := plusK_inv (goodCaptures method path status size) (Or.inl rfl) dot
      (fun taken remaining =>
        match matchItems patternTail remaining with
        | some caps => some (if false = true then taken :: caps else caps)
        | none => none)
      (filler ++ ' ' :: '[' :: (timestamp ++ ']' ::
        requestChars method path version status size)) [] (by
        have hall := patternTail_good_before (filler ++ ' ' :: '[' :: timestamp)
          method path version status size (by
            intro c hc
            simp only [List.mem_append, List.mem_cons] at hc
            rcases hc with hc | hc | hc | hc
            · exact hfb c hc
            · subst hc; decide
            · subst hc; decide
            · exact ht c hc) hm hp hv hst hsz hreq
        have happ : (filler ++ ' ' :: '[' :: timestamp) ++ ']' ::
            requestChars method path version status size =
            filler ++ ' ' :: '[' :: (timestamp ++ ']' ::
              requestChars method path version status size) := by simp
        rw [happ] at hall
        refine allTails_mono _ _ ?_ _ hall
        intro r hr taken
        have hk : (match matchItems patternTail r with
            | some caps => some (if false = true then taken :: caps else caps)
            | none => none) = matchItems patternTail r := by
          cases matchItems patternTail r <;> simp
        show goodCaptures method path status size
          (match matchItems patternTail r with
            | some caps => some (if false = true then taken :: caps else caps)
            | none => none)
        rw [hk]
        exact hr)
    have hsome := plusK_isSome dot
      (fun taken remaining =>
        match matchItems patternTail remaining with
        | some caps => some (if false = true then taken :: caps else caps)
        | none => none)
      filler (' ' :: '[' :: (timestamp ++ ']' ::
        requestChars method path version status size)) [] hf hf0 (by simp [hopen])
    rcases hgood with hnone | ⟨t, ht1⟩
    · rw [hnone] at hsome
      cases hsome
    · exact ⟨t, ht1⟩
  obtain ⟨t, ht1⟩ := hdot
  refine ⟨t, ?_⟩
  unfold pattern logLineChars
  rw [matchItems_plus_lit nonSpace true ' ' _ ip _ hip hip0 (by decide), ht1]
  simp

theorem digitsValue_eq (l : List Char) (acc : Nat) (h : ∀ c ∈ l, digit c = true) :
    digitsValue acc l =
      acc * 10 ^ l.length + Nat.ofDigits 10 ((l.map fun c => c.toNat - 48).reverse) := by
  induction l generalizing acc with
  | nil => simp [digitsValue]
  | cons c r ih =>
    have hc : digit c = true := h c (List.mem_cons_self _ _)
    simp only [digitsValue, hc, if_true]
    rw [ih _ fun d hd => h d (List.mem_cons_of_mem _ hd)]
    simp only [List.map_cons, List.reverse_cons, Nat.ofDigits_append, Nat.ofDigits_singleton,
      List.length_reverse, List.length_map, List.length_cons]
    ring

/-- An integer that is exactly a double is its own Number value. -/
theorem toDouble_of_exact (n : Nat) (h : exactDouble n) : toDouble n = JsNumber.finite n := by
  obtain ⟨q, e1, hq, hn, hlt⟩ := h
  unfold toDouble
  by_cases hsmall : n < 2 ^ 53
  · rw [if_pos hsmall]
  · rw [if_neg hsmall]
    have hn0 : n ≠ 0 := by
      intro h0
      rw [h0] at hsmall
      exact hsmall (by positivity)
    have hlog : Nat.log2 n < 53 + e1 := by
      rw [Nat.log2_lt hn0, hn, pow_add]
      exact Nat.mul_lt_mul_of_pos_right hq (by positivity)
    have hle : Nat.log2 n + 1 - 53 ≤ e1 := by omega
    have hlog53 : 53 ≤ Nat.log2 n := by
      by_contra hc
      have : Nat.log2 n < 53 := by omega
      rw [Nat.log2_lt hn0] at this
      exact hsmall this
    have hdvd : 2 ^ (Nat.log2 n + 1 - 53) ∣ n := by
      have h2 : 2 ^ (Nat.log2 n + 1 - 53) ∣ q * 2 ^ e1 :=
        Dvd.dvd.mul_left (pow_dvd_pow 2 hle) q
      rwa [← hn] at h2
    have hr : n % 2 ^ (Nat.log2 n + 1 - 53) = 0 := Nat.mod_eq_zero_of_dvd hdvd
    have hhalf : 0 < 2 ^ (Nat.log2 n + 1 - 53 - 1) := by positivity
    have hq1 : (if n % 2 ^ (Nat.log2 n + 1 - 53) > 2 ^ (Nat.log2 n + 1 - 53 - 1) ∨
        (n % 2 ^ (Nat.log2 n + 1 - 53) = 2 ^ (Nat.log2 n + 1 - 53 - 1) ∧
          n / 2 ^ (Nat.log2 n + 1 - 53) % 2 = 1)
        then n / 2 ^ (Nat.log2 n + 1 - 53) + 1 else n / 2 ^ (Nat.log2 n + 1 - 53)) =
        n / 2 ^ (Nat.log2 n + 1 - 53) := by
      rw [if_neg]
      rw [hr]
      omega
    simp only [hq1, Nat.div_mul_cancel hdvd]
    rw [if_neg (by omega)]

theorem parseInt_digits (s : String) (h0 : s ≠ "") (h : ∀ c ∈ s.data, digit c = true)
    (hexact : exactDouble (decimalValue s)) :
    parseInt s = JsNumber.finite (decimalValue s) := by
  have hval : digitsValue 0 s.data = decimalValue s := by
    rw [digitsValue_eq s.data 0 h]
    simp [decimalValue]
  unfold parseInt
  cases hd : s.data with
  | nil =>
    exfalso
    apply h0
    cases s
    simp only at hd
    subst hd
    rfl
  | cons c r =>
    have hc : digit c = true := h c (by rw [hd]; exact List.mem_cons_self _ _)
    simp only [hc, if_true]
    rw [← hd, hval]
    exact toDouble_of_exact _ hexact

theorem data_ne_nil (s : String) (h : s ≠ "") : s.data ≠ [] := by
  intro hd
  apply h
  cases s
  simp only at hd
  subst hd
  rfl

/-- C5, as the code has it. For a log line
`IP FILLER [TIMESTAMP] "METHOD PATH HTTP/VERSION" STATUS SIZE` in which IP,
METHOD and PATH are non-empty and free of whitespace, FILLER is non-empty and
free of square brackets, double quotes and line terminators, TIMESTAMP is
non-empty and free of `]`, VERSION is a non-empty text of digits and dots, and
STATUS and SIZE are non-empty texts of decimal digits that denote integers
which are exactly doubles, the pattern matches and the event built from the
match has `ip`, `requestType` and `path` equal to IP, METHOD and PATH, and
`statusCode` and `responseSize` equal to the numbers STATUS and SIZE
denote. -/
theorem log_line_fields (ip filler timestamp method path version status size : String)
    (hip : ip ≠ "" ∧ ∀ c ∈ ip.data, isWhiteSpace c = false)
    (hfiller : filler ≠ "" ∧
      ∀ c ∈ filler.data, c ≠ '[' ∧ c ≠ ']' ∧ c ≠ '"' ∧ isLineTerminator c = false)
    (htimestamp : timestamp ≠ "" ∧ ∀ c ∈ timestamp.data, c ≠ ']')
    (hmethod : method ≠ "" ∧ ∀ c ∈ method.data, isWhiteSpace c = false)
    (hpath : path ≠ "" ∧ ∀ c ∈ path.data, isWhiteSpace c = false)
    (hversion : version ≠ "" ∧ ∀ c ∈ version.data, digit c = true ∨ c = '.')
    (hstatus : status ≠ "" ∧ (∀ c ∈ status.data, digit c = true) ∧
      exactDouble (decimalValue status))
    (hsize : size ≠ "" ∧ (∀ c ∈ size.data, digit c = true) ∧
      exactDouble (decimalValue size)) :
    ∃ m, logMatch (logLineText ip filler timestamp method path version status size) = some m ∧
      m.ip = ip ∧ m.method = method ∧ m.path = path ∧
      ∀ (geo : Geo) (now : Nat),
        (lineConnectionData m geo now).ip = ip ∧
        (lineConnectionData m geo now).requestType = method ∧
        (lineConnectionData m geo now).path = path ∧
        (lineConnectionData m geo now).statusCode =
          some (JsNumber.finite (decimalValue status)) ∧
        (lineConnectionData m geo now).responseSize =
          some (JsNumber.finite (decimalValue size)) := by
  obtain ⟨t, ht⟩ := matchItems_pattern_logLine ip.data filler.data timestamp.data method.data
    path.data version.data status.data size.data
    (fun c hc => by simp [nonSpace, hip.2 c hc]) (data_ne_nil ip hip.1)
    (fun c hc => by simp [dot, (hfiller.2 c hc).2.2.2])
    (fun c hc => by simp [notRBracket, (hfiller.2 c hc).2.1]) (data_ne_nil filler hfiller.1)
    (fun c hc => by simp [notRBracket, htimestamp.2 c hc]) (data_ne_nil timestamp htimestamp.1)
    (fun c hc => by simp [nonSpace, hmethod.2 c hc]) (data_ne_nil method hmethod.1)
    (fun c hc => by simp [nonSpace, hpath.2 c hc]) (data_ne_nil path hpath.1)
    (fun c hc => by
      rcases hversion.2 c hc with h | h
      · simp [digitOrDot, h]
      · simp [digitOrDot, h])
    (data_ne_nil version hversion.1)
    hstatus.2.1 (data_ne_nil status hstatus.1) hsize.2.1 (data_ne_nil size hsize.1)
  refine ⟨⟨ip, String.mk t, method, path, status, size⟩, ?_, rfl, rfl, rfl, ?_⟩
  · simp only [logMatch, logLineText, ht]
  · intro geo now
    refine ⟨rfl, rfl, rfl, ?_, ?_⟩
    · exact congrArg some (parseInt_digits status hstatus.1 hstatus.2.1 hstatus.2.2)
    · exact congrArg some (parseInt_digits size hsize.1 hsize.2.1 hsize.2.2)

theorem sample_line_values :
    logLineText "203.0.113.5" "- -" "10/Oct/2023:13:55:36" "GET" "/api/data" "1.1" "200" "512"
      = sampleLine ∧ decimalValue "200" = 200 ∧ decimalValue "512" = 512 := by
  refine ⟨by decide, ?_, ?_⟩ <;> simp [decimalValue, Nat.ofDigits]

theorem two_pow_lt (a b : Nat) (h : a < b) : 2 ^ a < 2 ^ b :=
  Nat.pow_lt_pow_right (by decide) h

theorem exactDouble_of_le (n : Nat) (h : n ≤ 2 ^ 53) : exactDouble n := by
  have h53 : (53 : Nat) < 1024 := by decide
  have hbig : (2 : Nat) ^ 53 < 2 ^ 1024 := two_pow_lt 53 1024 h53
  rcases Nat.lt_or_ge n (2 ^ 53) with hlt | hge
  · exact ⟨n, 0, hlt, by simp, Nat.lt_trans hlt hbig⟩
  · have hn : n = 2 ^ 53 := Nat.le_antisymm h hge
    refine ⟨2 ^ 52, 1, Nat.pow_lt_pow_right (by decide) (by decide), ?_, ?_⟩
    · rw [hn]; norm_num
    · rw [hn]
      exact hbig

theorem log_line_fields_witness :
    ∃ m, logMatch sampleLine = some m ∧
      m.ip = "203.0.113.5" ∧ m.method = "GET" ∧ m.path = "/api/data" ∧
      ∀ (geo : Geo) (now : Nat),
        (lineConnectionData m geo now).ip = "203.0.113.5" ∧
        (lineConnectionData m geo now).requestType = "GET" ∧
        (lineConnectionData m geo now).path = "/api/data" ∧
        (lineConnectionData m geo now).statusCode = some (JsNumber.finite 200) ∧
        (lineConnectionData m geo now).responseSize = some (JsNumber.finite 512) := by
  have h := log_line_fields "203.0.113.5" "- -" "10/Oct/2023:13:55:36" "GET" "/api/data" "1.1"
    "200" "512" (by decide) (by decide) (by decide) (by decide) (by decide) (by decide)
    ⟨by decide, by decide, exactDouble_of_le _ (by
      rw [sample_line_values.2.1]; exact Nat.le_of_lt (by decide))⟩
    ⟨by decide, by decide, exactDouble_of_le _ (by
      rw [sample_line_values.2.2]; exact Nat.le_of_lt (by decide))⟩
  rw [sample_line_values.1, sample_line_values.2.1, sample_line_values.2.2] at h
  exact h

theorem big_size_values :
    logMatch bigSizeLine =
      some ⟨"203.0.113.5", "10/Oct/2023:13:55:36", "GET", "/api/data", "200",
        "9007199254740993"⟩ ∧
    digitsValue 0 "9007199254740993".data = 9007199254740993 ∧
    decimalValue "9007199254740993" = 9007199254740993 ∧
    toDouble 9007199254740993 = JsNumber.finite 9007199254740992 := by
  refine ⟨by decide, ?_, ?_, ?_⟩
  · rw [digitsValue_eq _ 0 (by decide)]
    simp [Nat.ofDigits]
  · simp [decimalValue, Nat.ofDigits]
  · have hlog : Nat.log2 9007199254740993 = 53 := by
      have h1 : Nat.log2 9007199254740993 < 54 := by
        rw [Nat.log2_lt (by decide)]; norm_num
      have h2 : ¬ Nat.log2 9007199254740993 < 53 := by
        rw [Nat.log2_lt (by decide)]; norm_num
      omega
    unfold toDouble
    rw [if_neg (by norm_num)]
    simp only [hlog]
    norm_num

/-- C5 fails as stated, in three ways. A filler with a carriage return is
non-empty and free of square brackets and double quotes, and an empty version
is made of digits and dots, yet neither line matches the pattern. A line with
SIZE `9007199254740993` matches, and `responseSize` is the double
9007199254740992, which is not the integer SIZE denotes. -/
theorem log_line_unmatched :
    (("-\r-" ≠ "" ∧ ∀ c ∈ "-\r-".data, c ≠ '[' ∧ c ≠ ']' ∧ c ≠ '"') ∧
      logMatch (logLineText "203.0.113.5" "-\r-" "10/Oct/2023:13:55:36" "GET" "/api/data"
        "1.1" "200" "512") = none) ∧
    ((∀ c ∈ "".data, digit c = true ∨ c = '.') ∧
      logMatch (logLineText "203.0.113.5" "- -" "10/Oct/2023:13:55:36" "GET" "/api/data"
        "" "200" "512") = none) ∧
    (∃ m, logMatch bigSizeLine = some m ∧ m.size = "9007199254740993" ∧
      (∀ c ∈ "9007199254740993".data, digit c = true) ∧
      decimalValue "9007199254740993" = 9007199254740993 ∧
      (lineConnectionData m ⟨48, 2, "FR", "Paris"⟩ 5).responseSize =
        some (JsNumber.finite 9007199254740992)) := by
  refine ⟨by decide, by decide, _, big_size_values.1, rfl, by decide, big_size_values.2.2.1, ?_⟩
  show some (parseInt "9007199254740993") = some (JsNumber.finite 9007199254740992)
  have hp : parseInt "9007199254740993" = toDouble (digitsValue 0 "9007199254740993".data) := by
    simp [parseInt, digit]
  rw [hp, big_size_values.2.1, big_size_values.2.2.2]

/-! ## States of the viewer -/

/-- The display set stays within its capacity, with as many arcs as points,
under `addNewConnection` and `tick`, starting from the constructor. -/
theorem display_set_bounded (g : Globe) (hlen : g.arcsData.length = g.pointsData.length)
    (hcap : g.arcsData.length ≤ MAX_CONNECTIONS_DISPLAYED) :
    (Globe.new.arcsData.length = Globe.new.pointsData.length ∧
      Globe.new.arcsData.length ≤ MAX_CONNECTIONS_DISPLAYED) ∧
    (∀ (connection : Connection) (now : Nat),
      (g.addNewConnection connection now).arcsData.length =
        (g.addNewConnection connection now).pointsData.length ∧
      (g.addNewConnection connection now).arcsData.length ≤ MAX_CONNECTIONS_DISPLAYED ∧
      (g.addNewConnection connection now).connectionQueue =
        g.connectionQueue ++ [⟨connection, connectionColor connection,
          match connection.timestamp with
          | some t => if t = 0 then now else t
          | none => now⟩]) ∧
    (∀ random : Nat → ℚ,
      (g.tick random).arcsData.length = (g.tick random).pointsData.length ∧
      (g.tick random).arcsData.length ≤ MAX_CONNECTIONS_DISPLAYED) := by
  refine ⟨⟨rfl, by simp [Globe.new]⟩, fun connection now => ⟨hlen, hcap, rfl⟩, ?_⟩
  intro random
  simp only [MAX_CONNECTIONS_DISPLAYED] at *
  have hloop := tickLoop_eq g random 0 g.connectionQueue g.arcsData g.pointsData hlen hcap
  simp only [Globe.tick, hloop, List.length_drop, List.length_append, arcsOf_length,
    List.length_map]
  omega

end GlobeClone
